import Mathlib

/-!
Verification development for `src/export_crm_api.py`, the Odoo 18 CRM →
CSV export script.

Modelling conventions:
* Python strings are Lean `String`s (lists of Unicode code points).
* Python floats are exact decimal numbers `m / 10 ^ d` (every IEEE double
  is exactly such a decimal), constructor `PyVal.dec`.
* Odoo's `False` "no value" sentinel is `PyVal.bool false`.
* The remote store behind the XML-RPC boundary is an explicit `Store`
  value; a bulk `read` returns the stored entities whose ids were
  requested (ids with no stored entity are simply absent from the reply).
* `unicodedata.normalize("NFC", ·)` and `str.strip()` are Python library
  functions outside this repository; they are modelled from the spec
  (canonical composition over the accented characters the script's
  comments name, plus ASCII whitespace trimming).
-/

namespace ExportCrm

/-! ### Generic list helpers -/

theorem dropWhile_append_of_all {α : Type} (p : α → Bool) (l₁ l₂ : List α)
    (h : ∀ a ∈ l₁, p a = true) :
    (l₁ ++ l₂).dropWhile p = l₂.dropWhile p := by
  induction l₁ with
  | nil => rfl
  | cons a t ih =>
    simp only [List.cons_append, List.dropWhile_cons, h a (by simp)]
    exact ih (fun b hb => h b (by simp [hb]))

theorem takeWhile_append_of_all {α : Type} (p : α → Bool) (l₁ l₂ : List α)
    (h : ∀ a ∈ l₁, p a = true) :
    (l₁ ++ l₂).takeWhile p = l₁ ++ l₂.takeWhile p := by
  induction l₁ with
  | nil => rfl
  | cons a t ih =>
    simp only [List.cons_append, List.takeWhile_cons, h a (by simp)]
    simp [ih (fun b hb => h b (by simp [hb]))]

theorem takeWhile_eq_self_of_all {α : Type} (p : α → Bool) (l : List α)
    (h : ∀ a ∈ l, p a = true) : l.takeWhile p = l := by
  have := takeWhile_append_of_all p l [] h
  simpa using this

theorem head?_dropWhile_not {α : Type} (p : α → Bool) (l : List α) {a : α}
    (h : (l.dropWhile p).head? = some a) : p a = false := by
  induction l with
  | nil => simp at h
  | cons b t ih =>
    by_cases hb : p b = true
    · rw [List.dropWhile_cons, if_pos hb] at h; exact ih h
    · rw [List.dropWhile_cons, if_neg hb] at h
      simp at h
      subst h
      simpa using hb

theorem dropWhile_eq_self_of_head {α : Type} (p : α → Bool) (l : List α)
    (h : ∀ a ∈ l.head?, p a = false) : l.dropWhile p = l := by
  cases l with
  | nil => rfl
  | cons a t =>
    have : p a = false := h a (by simp)
    simp [List.dropWhile_cons, this]

theorem exists_append_dropWhile {α : Type} (p : α → Bool) (l : List α) :
    ∃ t, t ++ l.dropWhile p = l ∧ ∀ a ∈ t, p a = true := by
  induction l with
  | nil => exact ⟨[], rfl, by simp⟩
  | cons a t ih =>
    by_cases ha : p a = true
    · obtain ⟨u, hu, hall⟩ := ih
      exact ⟨a :: u, by simp [List.dropWhile_cons, ha, hu], by
        intro b hb
        rcases List.mem_cons.mp hb with h | h
        · exact h ▸ ha
        · exact hall b h⟩
    · exact ⟨[], by simp [List.dropWhile_cons, ha], by simp⟩

theorem dropWhile_idem {α : Type} (p : α → Bool) (l : List α) :
    (l.dropWhile p).dropWhile p = l.dropWhile p := by
  apply dropWhile_eq_self_of_head
  intro a ha
  exact head?_dropWhile_not p l ha

/-! ### Python text model: NFC canonical composition and strip

`unicodedata.normalize("NFC", s)` is modelled from the spec: the script's
comments promise composition of the Spanish accented characters
á é í ó ú ñ ü (and their upper-case forms) from base letter + combining
mark into single precomposed code points.  `str.strip()` is modelled as
trimming ASCII whitespace from both ends. -/

def accentAcute : Char := Char.ofNat 769

def accentTilde : Char := Char.ofNat 771

def accentDiaeresis : Char := Char.ofNat 776

/-- Canonical composition pairs (base char, combining mark) → precomposed
char, for the characters the script's documentation names. -/
def compTable : List ((Char × Char) × Char) :=
  [ (('a', accentAcute), Char.ofNat 225), (('e', accentAcute), Char.ofNat 233),
    (('i', accentAcute), Char.ofNat 237), (('o', accentAcute), Char.ofNat 243),
    (('u', accentAcute), Char.ofNat 250), (('A', accentAcute), Char.ofNat 193),
    (('E', accentAcute), Char.ofNat 201), (('I', accentAcute), Char.ofNat 205),
    (('O', accentAcute), Char.ofNat 211), (('U', accentAcute), Char.ofNat 218),
    (('n', accentTilde), Char.ofNat 241), (('N', accentTilde), Char.ofNat 209),
    (('u', accentDiaeresis), Char.ofNat 252), (('U', accentDiaeresis), Char.ofNat 220) ]

def compose2 (c1 c2 : Char) : Option Char :=
  (compTable.find? (fun e => e.1.1 == c1 && e.1.2 == c2)).map (fun e => e.2)

/-- One left-to-right canonical-composition pass, carrying the pending
(starter) character. -/
def normAux (pending : Char) : List Char → List Char
  | [] => [pending]
  | c :: rest =>
    match compose2 pending c with
    | some comp => normAux comp rest
    | none => pending :: normAux c rest

/-- Modelled from the spec: `unicodedata.normalize("NFC", ·)` restricted to
the composition pairs of `compTable`. -/
def normNFC : List Char → List Char
  | [] => []
  | c :: rest => normAux c rest

def pyIsSpace (c : Char) : Bool :=
  c == ' ' || c == '\t' || c == '\n' || c == '\r' || c == Char.ofNat 11 || c == Char.ofNat 12

def ltrimWs (l : List Char) : List Char := l.dropWhile pyIsSpace

def rtrimWs (l : List Char) : List Char := (l.reverse.dropWhile pyIsSpace).reverse

/-- Modelled from the spec: Python `str.strip()`. -/
def pyStrip (l : List Char) : List Char := rtrimWs (ltrimWs l)

/-- `unicodedata.normalize("NFC", s).strip()` — the text normalization every
text scalar of the export passes through (`flat`, tag labels). -/
def pyStrNorm (s : String) : String := (pyStrip (normNFC s.data)).asString

/-! ### Composition facts -/

theorem compose2_table_mem {c1 c2 c : Char} (h : compose2 c1 c2 = some c) :
    ((c1, c2), c) ∈ compTable := by
  unfold compose2 at h
  rcases ho : compTable.find? (fun e => e.1.1 == c1 && e.1.2 == c2) with _ | e
  · rw [ho] at h; exact Option.noConfusion h
  · rw [ho] at h
    have h : e.2 = c := by injection h
    have hmem := List.mem_of_find?_eq_some ho
    have hp := List.find?_some ho
    simp only [Bool.and_eq_true, beq_iff_eq] at hp
    obtain ⟨h1, h2⟩ := hp
    have : e = ((c1, c2), c) := by
      rcases e with ⟨⟨x, y⟩, z⟩
      simp_all
    rw [this] at hmem
    exact hmem

/-- No table value (a precomposed char) occurs as a base or mark of any
table entry. -/
theorem compTable_values_fresh :
    ∀ e ∈ compTable, ∀ e' ∈ compTable, e'.1.1 ≠ e.2 ∧ e'.1.2 ≠ e.2 := by decide

theorem compose2_composed_inert {a b c : Char} (h : compose2 a b = some c) :
    (∀ y, compose2 c y = none) ∧ (∀ x, compose2 x c = none) := by
  have hmem := compose2_table_mem h
  have hfresh := compTable_values_fresh _ hmem
  constructor
  · intro y
    have hn : compTable.find? (fun e => e.1.1 == c && e.1.2 == y) = none := by
      rw [List.find?_eq_none]
      intro e he
      simp only [Bool.and_eq_true, beq_iff_eq, not_and]
      intro h1
      exact absurd h1 (hfresh e he).1
    unfold compose2
    rw [hn]
    rfl
  · intro x
    have hn : compTable.find? (fun e => e.1.1 == x && e.1.2 == c) = none := by
      rw [List.find?_eq_none]
      intro e he
      simp only [Bool.and_eq_true, beq_iff_eq, not_and]
      intro _ h2
      exact absurd h2 (hfresh e he).2
    unfold compose2
    rw [hn]
    rfl

/-- Heads that can come out of `normAux`: the pending char itself, or a
composed char. -/
theorem normAux_head {h : Char} :
    ∀ (r : List Char) (c : Char), (normAux c r).head? = some h →
      h = c ∨ ∃ a b, compose2 a b = some h := by
  intro r
  induction r with
  | nil =>
    intro c hc
    left
    simp only [normAux, List.head?_cons, Option.some.injEq] at hc
    exact hc.symm
  | cons d r' ih =>
    intro c hc
    unfold normAux at hc
    rcases hcomp : compose2 c d with _ | comp
    · rw [hcomp] at hc
      simp at hc
      left; exact hc.symm
    · rw [hcomp] at hc
      rcases ih comp hc with h1 | h2
      · right; exact ⟨c, d, h1 ▸ hcomp⟩
      · right; exact h2

/-- The composition pass leaves no composable adjacent pair behind. -/
theorem normAux_chain :
    ∀ (r : List Char) (c : Char),
      List.Chain' (fun a b => compose2 a b = none) (normAux c r) := by
  intro r
  induction r with
  | nil => intro c; simp [normAux]
  | cons d r' ih =>
    intro c
    unfold normAux
    rcases hcomp : compose2 c d with _ | comp
    · rw [List.chain'_cons']
      refine ⟨?_, ih d⟩
      intro y hy
      rcases normAux_head r' d hy with h1 | ⟨a, b, hab⟩
      · exact h1 ▸ hcomp
      · exact (compose2_composed_inert hab).2 c
    · exact ih comp

theorem normNFC_chain (l : List Char) :
    List.Chain' (fun a b => compose2 a b = none) (normNFC l) := by
  cases l with
  | nil => simp [normNFC]
  | cons c r => exact normAux_chain r c

/-- A string with no composable adjacent pair is a fixed point of the
composition pass. -/
theorem normAux_fix :
    ∀ (r : List Char) (c : Char),
      List.Chain' (fun a b => compose2 a b = none) (c :: r) →
      normAux c r = c :: r := by
  intro r
  induction r with
  | nil => intro c _; rfl
  | cons d r' ih =>
    intro c hch
    have h1 : compose2 c d = none := (List.chain'_cons.mp hch).1
    unfold normAux
    rw [h1]
    rw [ih d (List.chain'_cons.mp hch).2]

theorem normNFC_fix {l : List Char}
    (h : List.Chain' (fun a b => compose2 a b = none) l) : normNFC l = l := by
  cases l with
  | nil => rfl
  | cons c r => exact normAux_fix r c h

theorem chain'_dropWhile {α : Type} {R : α → α → Prop} (p : α → Bool)
    {l : List α} (h : List.Chain' R l) : List.Chain' R (l.dropWhile p) := by
  induction l with
  | nil => simp
  | cons a t ih =>
    rw [List.dropWhile_cons]
    by_cases ha : p a = true
    · simp only [ha, if_true]
      exact ih h.tail
    · simp only [ha, if_false]
      exact h

theorem chain'_pyStrip {R : Char → Char → Prop} {l : List Char}
    (h : List.Chain' R l) : List.Chain' R (pyStrip l) := by
  unfold pyStrip rtrimWs ltrimWs
  rw [List.chain'_reverse]
  apply chain'_dropWhile
  rw [List.chain'_reverse]
  show List.Chain' _ (List.dropWhile pyIsSpace l)
  exact chain'_dropWhile pyIsSpace h

/-! ### Strip and normalization idempotence -/

theorem head?_append_left {α : Type} {l l' : List α} (h : l ≠ []) :
    (l ++ l').head? = l.head? := by
  cases l with
  | nil => exact absurd rfl h
  | cons a t => rfl

theorem ltrimWs_idem (l : List Char) : ltrimWs (ltrimWs l) = ltrimWs l :=
  dropWhile_idem _ _

theorem rtrimWs_idem (l : List Char) : rtrimWs (rtrimWs l) = rtrimWs l := by
  unfold rtrimWs
  rw [List.reverse_reverse, dropWhile_idem]

theorem exists_rtrimWs_append (l : List Char) :
    ∃ t, rtrimWs l ++ t = l ∧ ∀ a ∈ t, pyIsSpace a = true := by
  obtain ⟨t, ht, hall⟩ := exists_append_dropWhile pyIsSpace l.reverse
  refine ⟨t.reverse, ?_, fun a ha => hall a (List.mem_reverse.mp ha)⟩
  unfold rtrimWs
  have := congrArg List.reverse ht
  rw [List.reverse_append] at this
  simpa using this

theorem head?_rtrimWs {l : List Char} (h : rtrimWs l ≠ []) :
    (rtrimWs l).head? = l.head? := by
  obtain ⟨t, ht, _⟩ := exists_rtrimWs_append l
  conv_rhs => rw [← ht]
  exact (head?_append_left h).symm

theorem ltrimWs_rtrimWs_ltrimWs (l : List Char) :
    ltrimWs (rtrimWs (ltrimWs l)) = rtrimWs (ltrimWs l) := by
  apply dropWhile_eq_self_of_head
  intro a ha
  by_cases hne : rtrimWs (ltrimWs l) = []
  · rw [hne] at ha; simp at ha
  · rw [head?_rtrimWs hne] at ha
    exact head?_dropWhile_not pyIsSpace l ha

theorem pyStrip_idem (l : List Char) : pyStrip (pyStrip l) = pyStrip l := by
  unfold pyStrip
  rw [ltrimWs_rtrimWs_ltrimWs, rtrimWs_idem]

theorem data_asString (l : List Char) : (l.asString).data = l := rfl

theorem pyStrNorm_idem (s : String) : pyStrNorm (pyStrNorm s) = pyStrNorm s := by
  unfold pyStrNorm
  rw [data_asString]
  rw [normNFC_fix (chain'_pyStrip (normNFC_chain s.data)), pyStrip_idem]

/-! ### Decimal digits (fuel-based, kernel-evaluable) -/

def digitsRevF : Nat → Nat → List Nat
  | _, 0 => []
  | 0, _ + 1 => []
  | f + 1, n + 1 => ((n + 1) % 10) :: digitsRevF f ((n + 1) / 10)

/-- Least-significant-first base-10 digits; agrees with `Nat.digits 10`. -/
def digits10 (n : Nat) : List Nat := digitsRevF n n

theorem digitsRevF_eq : ∀ (fuel n : Nat), n ≤ fuel → digitsRevF fuel n = Nat.digits 10 n := by
  intro fuel
  induction fuel with
  | zero =>
    intro n hn
    have : n = 0 := Nat.le_zero.mp hn
    subst this
    simp [digitsRevF]
  | succ f ih =>
    intro n hn
    cases n with
    | zero => simp [digitsRevF]
    | succ m =>
      show ((m + 1) % 10) :: digitsRevF f ((m + 1) / 10) = _
      rw [Nat.digits_def' (by norm_num : (1 : Nat) < 10) (Nat.succ_pos m)]
      congr 1
      apply ih
      have h1 : (m + 1) / 10 < m + 1 := Nat.div_lt_self (Nat.succ_pos m) (by norm_num)
      omega

theorem digits10_eq (n : Nat) : digits10 n = Nat.digits 10 n :=
  digitsRevF_eq n n le_rfl

/-! ### The `%.10g` formatter (Python `f"{x:.10g}"` on exact decimals) -/

def digitChar : Nat → Char
  | 0 => '0'
  | 1 => '1'
  | 2 => '2'
  | 3 => '3'
  | 4 => '4'
  | 5 => '5'
  | 6 => '6'
  | 7 => '7'
  | 8 => '8'
  | _ => '9'

/-- Drop trailing zero digits. -/
def stripT0 (l : List Nat) : List Nat := (l.reverse.dropWhile (· == 0)).reverse

/-- Quotient of `a` by the power of ten that keeps 10 significant digits,
rounded half-to-even. -/
def rnd10M0 (a : Nat) : Nat :=
  if 2 * (a % 10 ^ ((digits10 a).length - 10)) > 10 ^ ((digits10 a).length - 10)
      ∨ (2 * (a % 10 ^ ((digits10 a).length - 10)) = 10 ^ ((digits10 a).length - 10)
        ∧ (a / 10 ^ ((digits10 a).length - 10)) % 2 = 1)
  then a / 10 ^ ((digits10 a).length - 10) + 1
  else a / 10 ^ ((digits10 a).length - 10)

/-- Round `a` (half-to-even) to at most 10 significant digits, returning the
mantissa and the exponent adjustment (1 when rounding carries into an
eleventh digit). -/
def round10 (a : Nat) : Nat × Int :=
  if (digits10 a).length ≤ 10 then (a, 0)
  else if rnd10M0 a = 10 ^ 10 then (10 ^ 9, 1) else (rnd10M0 a, 0)

/-- Most-significant-first significant digits of the mantissa. -/
def sigDigitsOf (M : Nat) : List Nat := (digits10 M).reverse

/-- Fixed ("f"-style) rendering of mantissa digits `D` with decimal exponent
`X`, trailing fractional zeros removed, point removed if no fraction. -/
def fixedChars (D : List Nat) (X : Int) : List Char :=
  if (D.length : Int) - 1 ≤ X then
    (D ++ List.replicate (X + 1 - D.length).toNat 0).map digitChar
  else if 0 ≤ X then
    (D.take (X.toNat + 1)).map digitChar ++
      (if (stripT0 (D.drop (X.toNat + 1))).isEmpty then []
       else '.' :: (stripT0 (D.drop (X.toNat + 1))).map digitChar)
  else
    '0' :: '.' :: (List.replicate ((-X).toNat - 1) 0 ++ stripT0 D).map digitChar

/-- Exponent suffix `e±XX` (at least two exponent digits). -/
def expChars (X : Int) : List Char :=
  let ds := (digits10 X.natAbs).reverse
  let ds := if ds.length < 2 then List.replicate (2 - ds.length) 0 ++ ds else ds
  'e' :: (if X < 0 then '-' else '+') :: ds.map digitChar

/-- Scientific ("e"-style) rendering, trailing fractional zeros removed. -/
def sciChars (D : List Nat) (X : Int) : List Char :=
  (match D with
   | [] => ['0']
   | h :: tl =>
     digitChar h ::
       (if (stripT0 tl).isEmpty then [] else '.' :: (stripT0 tl).map digitChar))
  ++ expChars X

/-- Decimal exponent of the rounded value `a / 10 ^ d`. -/
def fmtX (a d : Nat) : Int :=
  ((digits10 a).length : Int) - 1 - (d : Int) + (round10 a).2

/-- `%.10g` on the positive value `a / 10 ^ d` (`a ≠ 0`). -/
def fmtPosChars (a d : Nat) : List Char :=
  if -4 ≤ fmtX a d ∧ fmtX a d < 10 then fixedChars (sigDigitsOf (round10 a).1) (fmtX a d)
  else sciChars (sigDigitsOf (round10 a).1) (fmtX a d)

def fmtDecChars (m : Int) (d : Nat) : List Char :=
  if m = 0 then ['0']
  else (if m < 0 then ['-'] else []) ++ fmtPosChars m.natAbs d

/-- Python `f"{x:.10g}"` on the exact decimal value `m / 10 ^ d`. -/
def fmtDec (m : Int) (d : Nat) : String := (fmtDecChars m d).asString

/-- Significant digits of a rendered numeral: digit characters of the
mantissa part (before any exponent marker), ignoring leading zeros. -/
def sigDigitCount (cs : List Char) : Nat :=
  (((cs.takeWhile (fun c => c != 'e')).filter Char.isDigit).dropWhile (· == '0')).length

/-- Trailing insignificant zeros are trimmed: if the mantissa part carries a
decimal point it ends neither in `0` nor in the point itself. -/
def trimmedFrac (cs : List Char) : Prop :=
  ('.' ∈ cs.takeWhile (fun c => c != 'e') →
      (cs.takeWhile (fun c => c != 'e')).getLast? ≠ some '0') ∧
    (cs.takeWhile (fun c => c != 'e')).getLast? ≠ some '.'

/-! ### Character-level facts for the formatter -/

theorem digitChar_mem (d : Nat) :
    digitChar d ∈ ['0', '1', '2', '3', '4', '5', '6', '7', '8', '9'] := by
  match d with
  | 0 => decide
  | 1 => decide
  | 2 => decide
  | 3 => decide
  | 4 => decide
  | 5 => decide
  | 6 => decide
  | 7 => decide
  | 8 => decide
  | n + 9 =>
    have h9 : digitChar (n + 9) = '9' := rfl
    rw [h9]
    decide

theorem digitChar_spec (d : Nat) :
    (digitChar d).isDigit = true ∧ (digitChar d != 'e') = true ∧ digitChar d ≠ '.' := by
  have h := digitChar_mem d
  simp only [List.mem_cons, List.not_mem_nil, or_false] at h
  rcases h with h | h | h | h | h | h | h | h | h | h <;> rw [h] <;>
    exact ⟨by decide, by decide, by decide⟩

theorem digitChar_isDigit (d : Nat) : (digitChar d).isDigit = true :=
  (digitChar_spec d).1

theorem digitChar_ne_e (d : Nat) : (digitChar d != 'e') = true :=
  (digitChar_spec d).2.1

theorem digitChar_ne_dot (d : Nat) : digitChar d ≠ '.' :=
  (digitChar_spec d).2.2

theorem digitChar_eq_zero_iff (d : Nat) : digitChar d = '0' ↔ d = 0 := by
  constructor
  · intro h
    match d, h with
    | 0, _ => rfl
    | 1, h => exact absurd h (by decide)
    | 2, h => exact absurd h (by decide)
    | 3, h => exact absurd h (by decide)
    | 4, h => exact absurd h (by decide)
    | 5, h => exact absurd h (by decide)
    | 6, h => exact absurd h (by decide)
    | 7, h => exact absurd h (by decide)
    | 8, h => exact absurd h (by decide)
    | n + 9, h =>
      have h9 : digitChar (n + 9) = '9' := rfl
      rw [h9] at h
      exact absurd h (by decide)
  · intro h
    subst h
    rfl

theorem mem_of_head? {α : Type} {l : List α} {a : α} (h : l.head? = some a) : a ∈ l := by
  cases l with
  | nil => simp at h
  | cons b t =>
    simp only [List.head?_cons, Option.some.injEq] at h
    exact h ▸ List.mem_cons_self b t

theorem mem_of_getLast? {α : Type} {l : List α} {a : α} (h : l.getLast? = some a) : a ∈ l := by
  rw [List.getLast?_eq_head?_reverse] at h
  exact List.mem_reverse.mp (mem_of_head? h)

theorem getLast?_append_right {α : Type} {l1 l2 : List α} (h : l2 ≠ []) :
    (l1 ++ l2).getLast? = l2.getLast? := by
  rw [List.getLast?_eq_head?_reverse, List.getLast?_eq_head?_reverse, List.reverse_append]
  exact head?_append_left (by simpa using h)

theorem getLast?_cons_ne {α : Type} (a : α) {l : List α} (h : l ≠ []) :
    (a :: l).getLast? = l.getLast? := by
  have : a :: l = [a] ++ l := rfl
  rw [this, getLast?_append_right h]

theorem getLast?_map {α β : Type} (f : α → β) (l : List α) :
    (l.map f).getLast? = l.getLast?.map f := by
  rw [List.getLast?_eq_head?_reverse, List.getLast?_eq_head?_reverse,
    ← List.map_reverse, List.head?_map]

theorem filter_eq_self_of_all {α : Type} (p : α → Bool) (l : List α)
    (h : ∀ a ∈ l, p a = true) : l.filter p = l := by
  induction l with
  | nil => rfl
  | cons a t ih =>
    rw [List.filter_cons, if_pos (h a (by simp))]
    rw [ih (fun b hb => h b (by simp [hb]))]

theorem exists_getLast?_of_ne_nil {α : Type} {l : List α} (h : l ≠ []) :
    ∃ a, l.getLast? = some a :=
  ⟨l.getLast h, List.getLast?_eq_getLast l h⟩

/-! ### stripT0 facts -/

theorem exists_stripT0_append (l : List Nat) :
    ∃ t, stripT0 l ++ t = l ∧ ∀ a ∈ t, a = 0 := by
  obtain ⟨t, ht, hall⟩ := exists_append_dropWhile (· == 0) l.reverse
  refine ⟨t.reverse, ?_, ?_⟩
  · unfold stripT0
    have := congrArg List.reverse ht
    rw [List.reverse_append] at this
    simpa using this
  · intro a ha
    have := hall a (List.mem_reverse.mp ha)
    simpa using this

theorem length_stripT0_le (l : List Nat) : (stripT0 l).length ≤ l.length := by
  obtain ⟨t, ht, _⟩ := exists_stripT0_append l
  have := congrArg List.length ht
  simp only [List.length_append] at this
  omega

theorem getLast?_stripT0_ne_zero {l : List Nat} {x : Nat}
    (h : (stripT0 l).getLast? = some x) : x ≠ 0 := by
  rw [List.getLast?_eq_head?_reverse] at h
  unfold stripT0 at h
  rw [List.reverse_reverse] at h
  have := head?_dropWhile_not (· == 0) l.reverse h
  simpa using this

theorem stripT0_ne_nil {l : List Nat} {h0 : Nat} (hh : l.head? = some h0)
    (hnz : h0 ≠ 0) : stripT0 l ≠ [] := by
  intro hcon
  obtain ⟨t, ht, hall⟩ := exists_stripT0_append l
  rw [hcon, List.nil_append] at ht
  exact hnz (hall h0 (ht ▸ mem_of_head? hh))

theorem head?_stripT0 {l : List Nat} (h : stripT0 l ≠ []) :
    (stripT0 l).head? = l.head? := by
  obtain ⟨t, ht, _⟩ := exists_stripT0_append l
  conv_rhs => rw [← ht]
  exact (head?_append_left h).symm

theorem mem_stripT0 {l : List Nat} {x : Nat} (h : x ∈ stripT0 l) : x ∈ l := by
  obtain ⟨t, ht, _⟩ := exists_stripT0_append l
  rw [← ht]
  exact List.mem_append_left t h

/-! ### Shape lemmas for the rendered numerals -/

theorem notE_of_mem_map_digitChar {cs : List Nat} :
    ∀ c ∈ cs.map digitChar, (fun c => c != 'e') c = true := by
  intro c hc
  obtain ⟨x, _, rfl⟩ := List.mem_map.mp hc
  exact digitChar_ne_e x

theorem isDigit_of_mem_map_digitChar {cs : List Nat} :
    ∀ c ∈ cs.map digitChar, Char.isDigit c = true := by
  intro c hc
  obtain ⟨x, _, rfl⟩ := List.mem_map.mp hc
  exact digitChar_isDigit x

theorem not_dot_mem_map_digitChar {cs : List Nat} : '.' ∉ cs.map digitChar := by
  intro hc
  obtain ⟨x, _, hx⟩ := List.mem_map.mp hc
  exact digitChar_ne_dot x hx

theorem head_digitChar_not_zero {h0 : Nat} (hnz : h0 ≠ 0) :
    (digitChar h0 == '0') = false := by
  rw [beq_eq_false_iff_ne]
  intro hc
  exact hnz ((digitChar_eq_zero_iff h0).mp hc)

/-- Shape: a pure digit string with nonzero leading digit. -/
theorem sig_shape_digits (h0 : Nat) (rest : List Nat) (hnz : h0 ≠ 0) :
    sigDigitCount ((h0 :: rest).map digitChar) = rest.length + 1 ∧
      trimmedFrac ((h0 :: rest).map digitChar) ∧
      ((h0 :: rest).map digitChar).takeWhile (fun c => c != 'e') ≠ [] := by
  have htake : ((h0 :: rest).map digitChar).takeWhile (fun c => c != 'e')
      = (h0 :: rest).map digitChar :=
    takeWhile_eq_self_of_all _ _ notE_of_mem_map_digitChar
  have hfilter : ((h0 :: rest).map digitChar).filter Char.isDigit
      = (h0 :: rest).map digitChar :=
    filter_eq_self_of_all _ _ isDigit_of_mem_map_digitChar
  refine ⟨?_, ⟨?_, ?_⟩, ?_⟩
  · unfold sigDigitCount
    rw [htake, hfilter, List.map_cons, List.dropWhile_cons,
      if_neg (by simp [head_digitChar_not_zero hnz])]
    simp
  · rw [htake]
    intro hdot
    exact absurd hdot not_dot_mem_map_digitChar
  · rw [htake]
    intro hl
    exact not_dot_mem_map_digitChar (mem_of_getLast? hl)
  · rw [htake]
    simp

/-- Shape: integer digits, decimal point, nonempty fraction whose last
digit is nonzero. -/
theorem sig_shape_point (h0 : Nat) (ipRest fp : List Nat) (hnz : h0 ≠ 0)
    (hfp : fp ≠ []) (hfplast : ∀ x, fp.getLast? = some x → x ≠ 0) :
    sigDigitCount ((h0 :: ipRest).map digitChar ++ '.' :: fp.map digitChar)
        = ipRest.length + 1 + fp.length ∧
      trimmedFrac ((h0 :: ipRest).map digitChar ++ '.' :: fp.map digitChar) ∧
      ((h0 :: ipRest).map digitChar ++ '.' :: fp.map digitChar).takeWhile
          (fun c => c != 'e') ≠ [] := by
  have hallE : ∀ c ∈ (h0 :: ipRest).map digitChar ++ '.' :: fp.map digitChar,
      (fun c => c != 'e') c = true := by
    intro c hc
    rcases List.mem_append.mp hc with h | h
    · exact notE_of_mem_map_digitChar c h
    · rcases List.mem_cons.mp h with h | h
      · subst h; decide
      · exact notE_of_mem_map_digitChar c h
  have htake := takeWhile_eq_self_of_all _ _ hallE
  have hfpmapne : fp.map digitChar ≠ [] := by
    simpa using hfp
  obtain ⟨xl, hxl⟩ := exists_getLast?_of_ne_nil hfp
  have hlast : ((h0 :: ipRest).map digitChar ++ '.' :: fp.map digitChar).getLast?
      = some (digitChar xl) := by
    rw [getLast?_append_right (by simp), getLast?_cons_ne _ hfpmapne, getLast?_map, hxl]
    rfl
  refine ⟨?_, ⟨?_, ?_⟩, ?_⟩
  · unfold sigDigitCount
    rw [htake, List.filter_append,
      filter_eq_self_of_all _ _ isDigit_of_mem_map_digitChar,
      List.filter_cons, if_neg (by decide),
      filter_eq_self_of_all _ _ isDigit_of_mem_map_digitChar,
      List.map_cons, List.cons_append, List.dropWhile_cons,
      if_neg (by simp [head_digitChar_not_zero hnz])]
    simp
    omega
  · rw [htake, hlast]
    intro _ hc
    have hq : digitChar xl = '0' := by injection hc
    exact hfplast xl hxl ((digitChar_eq_zero_iff xl).mp hq)
  · rw [htake, hlast]
    intro hc
    have : digitChar xl = '.' := by injection hc
    exact digitChar_ne_dot xl this
  · rw [htake]
    simp

/-- Shape: `0.` followed by `z` leading zeros and digits whose last digit is
nonzero and head digit is nonzero. -/
theorem sig_shape_leadzeros (z h0 : Nat) (rest : List Nat) (hnz : h0 ≠ 0)
    (hlast : ∀ x, (h0 :: rest).getLast? = some x → x ≠ 0) :
    sigDigitCount ('0' :: '.' :: (List.replicate z 0 ++ h0 :: rest).map digitChar)
        = rest.length + 1 ∧
      trimmedFrac ('0' :: '.' :: (List.replicate z 0 ++ h0 :: rest).map digitChar) ∧
      ('0' :: '.' :: (List.replicate z 0 ++ h0 :: rest).map digitChar).takeWhile
          (fun c => c != 'e') ≠ [] := by
  have hallE : ∀ c ∈ '0' :: '.' :: (List.replicate z 0 ++ h0 :: rest).map digitChar,
      (fun c => c != 'e') c = true := by
    intro c hc
    rcases List.mem_cons.mp hc with h | h
    · subst h; decide
    rcases List.mem_cons.mp h with h | h
    · subst h; decide
    · exact notE_of_mem_map_digitChar c h
  have htake := takeWhile_eq_self_of_all _ _ hallE
  have hrepz : ∀ c ∈ (List.replicate z 0).map digitChar, (c == '0') = true := by
    intro c hc
    obtain ⟨x, hx, rfl⟩ := List.mem_map.mp hc
    rw [(List.mem_replicate.mp hx).2]
    decide
  obtain ⟨xl, hxl⟩ := exists_getLast?_of_ne_nil (l := h0 :: rest) (by simp)
  have hmapne : (List.replicate z 0 ++ h0 :: rest).map digitChar ≠ [] := by simp
  have hlastcs : ('0' :: '.' :: (List.replicate z 0 ++ h0 :: rest).map digitChar).getLast?
      = some (digitChar xl) := by
    rw [getLast?_cons_ne _ (by simp), getLast?_cons_ne _ hmapne,
      List.map_append, getLast?_append_right (by simp), getLast?_map, hxl]
    rfl
  refine ⟨?_, ⟨?_, ?_⟩, ?_⟩
  · unfold sigDigitCount
    rw [htake, List.filter_cons, if_pos (by decide), List.filter_cons, if_neg (by decide),
      filter_eq_self_of_all _ _ isDigit_of_mem_map_digitChar,
      List.dropWhile_cons, if_pos (by decide), List.map_append,
      dropWhile_append_of_all _ _ _ hrepz,
      List.map_cons, List.dropWhile_cons,
      if_neg (by simp [head_digitChar_not_zero hnz])]
    simp
  · rw [htake, hlastcs]
    intro _ hc
    have hq : digitChar xl = '0' := by injection hc
    exact hlast xl hxl ((digitChar_eq_zero_iff xl).mp hq)
  · rw [htake, hlastcs]
    intro hc
    have hq : digitChar xl = '.' := by injection hc
    exact digitChar_ne_dot xl hq
  · rw [htake]
    simp

/-- Shape: scientific mantissa (leading digit, optional stripped fraction)
followed by the exponent suffix. -/
theorem sig_shape_sci (h0 : Nat) (fp : List Nat) (X : Int) (hnz : h0 ≠ 0)
    (hfplast : ∀ x, fp.getLast? = some x → x ≠ 0) :
    sigDigitCount
        ((digitChar h0 :: (if fp.isEmpty then [] else '.' :: fp.map digitChar))
          ++ expChars X) ≤ fp.length + 1 ∧
      trimmedFrac
        ((digitChar h0 :: (if fp.isEmpty then [] else '.' :: fp.map digitChar))
          ++ expChars X) ∧
      ((digitChar h0 :: (if fp.isEmpty then [] else '.' :: fp.map digitChar))
          ++ expChars X).takeWhile (fun c => c != 'e') ≠ [] := by
  obtain ⟨tl, htl⟩ : ∃ tl, expChars X = 'e' :: tl := ⟨_, rfl⟩
  by_cases hfp : fp = []
  · subst hfp
    rw [htl]
    have htake : ((digitChar h0 :: (if ([] : List Nat).isEmpty then []
        else '.' :: ([] : List Nat).map digitChar)) ++ 'e' :: tl).takeWhile
          (fun c => c != 'e') = [digitChar h0] := by
      show ((([digitChar h0] : List Char)) ++ 'e' :: tl).takeWhile (fun c => c != 'e') = _
      rw [takeWhile_append_of_all _ _ _ (by
        intro c hc
        rw [List.mem_singleton] at hc
        subst hc
        exact digitChar_ne_e h0)]
      rw [List.takeWhile_cons, if_neg (by decide)]
      rfl
    refine ⟨?_, ⟨?_, ?_⟩, ?_⟩
    · unfold sigDigitCount
      rw [htake, List.filter_cons, if_pos (digitChar_isDigit h0), List.filter_nil,
        List.dropWhile_cons, if_neg (by simp [head_digitChar_not_zero hnz])]
      simp
    · rw [htake]
      intro hdot
      rw [List.mem_singleton] at hdot
      exact absurd hdot.symm (digitChar_ne_dot h0)
    · rw [htake]
      intro hc
      have hq : digitChar h0 = '.' := by
        simp only [List.getLast?_singleton, Option.some.injEq] at hc
        exact hc
      exact digitChar_ne_dot h0 hq
    · rw [htake]
      simp
  · have hfpe : fp.isEmpty = false := by
      simpa [List.isEmpty_iff] using hfp
    rw [hfpe, htl]
    rw [if_neg (by simp)]
    have hallE : ∀ c ∈ digitChar h0 :: '.' :: fp.map digitChar,
        (fun c => c != 'e') c = true := by
      intro c hc
      rcases List.mem_cons.mp hc with h | h
      · subst h; exact digitChar_ne_e h0
      rcases List.mem_cons.mp h with h | h
      · subst h; decide
      · exact notE_of_mem_map_digitChar c h
    have htake : ((digitChar h0 :: '.' :: fp.map digitChar) ++ 'e' :: tl).takeWhile
        (fun c => c != 'e') = digitChar h0 :: '.' :: fp.map digitChar := by
      rw [takeWhile_append_of_all _ _ _ hallE, List.takeWhile_cons, if_neg (by decide)]
      simp
    obtain ⟨xl, hxl⟩ := exists_getLast?_of_ne_nil hfp
    have hfpmapne : fp.map digitChar ≠ [] := by simpa using hfp
    have hlastcs : (digitChar h0 :: '.' :: fp.map digitChar).getLast?
        = some (digitChar xl) := by
      rw [getLast?_cons_ne _ (by simp), getLast?_cons_ne _ hfpmapne, getLast?_map, hxl]
      rfl
    refine ⟨?_, ⟨?_, ?_⟩, ?_⟩
    · unfold sigDigitCount
      rw [htake, List.filter_cons, if_pos (digitChar_isDigit h0), List.filter_cons,
        if_neg (by decide), filter_eq_self_of_all _ _ isDigit_of_mem_map_digitChar,
        List.dropWhile_cons, if_neg (by simp [head_digitChar_not_zero hnz])]
      simp
    · rw [htake, hlastcs]
      intro _ hc
      have hq : digitChar xl = '0' := by injection hc
      exact hfplast xl hxl ((digitChar_eq_zero_iff xl).mp hq)
    · rw [htake, hlastcs]
      intro hc
      have hq : digitChar xl = '.' := by injection hc
      exact digitChar_ne_dot xl hq
    · rw [htake]
      simp

/-! ### Mantissa bounds -/

theorem rnd10M0_le (a : Nat) (hk : ¬ (digits10 a).length ≤ 10) :
    rnd10M0 a ≤ 10 ^ 10 := by
  have htpos : 0 < 10 ^ ((digits10 a).length - 10) := Nat.pos_pow_of_pos _ (by norm_num)
  have hq : a / 10 ^ ((digits10 a).length - 10) < 10 ^ 10 := by
    rw [Nat.div_lt_iff_lt_mul htpos, ← pow_add]
    have hidx : 10 + ((digits10 a).length - 10) = (digits10 a).length := by omega
    rw [hidx]
    rw [digits10_eq]
    exact Nat.lt_base_pow_length_digits (by norm_num)
  unfold rnd10M0
  split_ifs <;> omega

theorem rnd10M0_pos (a : Nat) (hk : ¬ (digits10 a).length ≤ 10) (ha : a ≠ 0) :
    0 < rnd10M0 a := by
  have htpos : 0 < 10 ^ ((digits10 a).length - 10) := Nat.pos_pow_of_pos _ (by norm_num)
  have hklen : (digits10 a).length = (Nat.digits 10 a).length := by rw [digits10_eq]
  have hpow : 10 ^ (digits10 a).length ≤ 10 * a := by
    rw [hklen]
    exact Nat.base_pow_length_digits_le 10 a (by norm_num) ha
  have hlow : 10 ^ ((digits10 a).length - 1) ≤ a := by
    have hsucc : (digits10 a).length - 1 + 1 = (digits10 a).length := by omega
    have h10 : 10 ^ ((digits10 a).length - 1) * 10 ≤ 10 * a := by
      rw [← pow_succ, hsucc]
      exact hpow
    have := Nat.mul_le_mul_left 1 h10
    omega
  have hq : 1 ≤ a / 10 ^ ((digits10 a).length - 10) := by
    rw [Nat.le_div_iff_mul_le htpos, one_mul]
    calc 10 ^ ((digits10 a).length - 10) ≤ 10 ^ ((digits10 a).length - 1) :=
          Nat.pow_le_pow_right (by norm_num) (by omega)
      _ ≤ a := hlow
  unfold rnd10M0
  split_ifs <;> omega

theorem round10_pos {a : Nat} (ha : a ≠ 0) : 0 < (round10 a).1 := by
  unfold round10
  by_cases hk : (digits10 a).length ≤ 10
  · rw [if_pos hk]
    exact Nat.pos_of_ne_zero ha
  · rw [if_neg hk]
    split_ifs with h10
    · exact Nat.pos_pow_of_pos _ (by norm_num)
    · exact rnd10M0_pos a hk ha

theorem round10_lt (a : Nat) : (round10 a).1 < 10 ^ 10 := by
  unfold round10
  by_cases hk : (digits10 a).length ≤ 10
  · rw [if_pos hk]
    calc a < 10 ^ (Nat.digits 10 a).length := Nat.lt_base_pow_length_digits (by norm_num)
      _ ≤ 10 ^ 10 := Nat.pow_le_pow_right (by norm_num) (by rw [← digits10_eq]; exact hk)
  · rw [if_neg hk]
    split_ifs with h10
    · norm_num
    · exact lt_of_le_of_ne (rnd10M0_le a hk) h10

/-! ### The mantissa digit list -/

theorem sigDigitsOf_head {M : Nat} (hM : M ≠ 0) :
    ∃ h0 rest, sigDigitsOf M = h0 :: rest ∧ h0 ≠ 0 := by
  have hne : Nat.digits 10 M ≠ [] := Nat.digits_ne_nil_iff_ne_zero.mpr hM
  have hDeq : sigDigitsOf M = (Nat.digits 10 M).reverse := by
    unfold sigDigitsOf
    rw [digits10_eq]
  cases hr : (Nat.digits 10 M).reverse with
  | nil => exact absurd (by simpa using congrArg List.reverse hr) hne
  | cons x xs =>
    refine ⟨x, xs, by rw [hDeq, hr], ?_⟩
    have hgl? : (Nat.digits 10 M).getLast? = some x := by
      rw [List.getLast?_eq_head?_reverse, hr]
      rfl
    rw [List.getLast?_eq_getLast _ hne] at hgl?
    have heq : (Nat.digits 10 M).getLast hne = x := by injection hgl?
    rw [← heq]
    exact Nat.getLast_digit_ne_zero 10 hM

theorem sigDigitsOf_len_le {M : Nat} (hM : M ≠ 0) (hlt : M < 10 ^ 10) :
    (sigDigitsOf M).length ≤ 10 := by
  unfold sigDigitsOf
  rw [digits10_eq, List.length_reverse, Nat.digits_len 10 M (by norm_num) hM]
  have := (Nat.lt_pow_iff_log_lt (by norm_num : 1 < 10) hM).mp hlt
  omega

/-! ### Main formatter bounds -/

theorem fmtPosChars_ok (a d : Nat) (ha : a ≠ 0) :
    sigDigitCount (fmtPosChars a d) ≤ 10 ∧ trimmedFrac (fmtPosChars a d) ∧
      (fmtPosChars a d).takeWhile (fun c => c != 'e') ≠ [] := by
  have hM0 : (round10 a).1 ≠ 0 := (round10_pos ha).ne'
  have hMlt := round10_lt a
  obtain ⟨h0, rest, hD, hnz⟩ := sigDigitsOf_head hM0
  have hlen : (sigDigitsOf (round10 a).1).length ≤ 10 := sigDigitsOf_len_le hM0 hMlt
  rw [hD, List.length_cons] at hlen
  unfold fmtPosChars
  by_cases hXr : -4 ≤ fmtX a d ∧ fmtX a d < 10
  · rw [if_pos hXr]
    unfold fixedChars
    rw [hD]
    by_cases h1 : (((h0 :: rest).length : Nat) : Int) - 1 ≤ fmtX a d
    · rw [if_pos h1]
      rw [List.cons_append]
      have hmain := sig_shape_digits h0
        (rest ++ List.replicate (fmtX a d + 1 - ((h0 :: rest).length : Nat)).toNat 0) hnz
      refine ⟨?_, hmain.2.1, hmain.2.2⟩
      rw [hmain.1]
      simp only [List.length_append, List.length_replicate, List.length_cons] at h1 ⊢
      omega
    · rw [if_neg h1]
      by_cases h2 : (0 : Int) ≤ fmtX a d
      · rw [if_pos h2]
        rw [List.take_succ_cons, List.drop_succ_cons]
        by_cases hfp : stripT0 (rest.drop (fmtX a d).toNat) = []
        · rw [if_pos (by rw [hfp]; rfl), List.append_nil]
          have hmain := sig_shape_digits h0 (rest.take (fmtX a d).toNat) hnz
          refine ⟨?_, hmain.2.1, hmain.2.2⟩
          rw [hmain.1]
          have := List.length_take ((fmtX a d).toNat) rest
          omega
        · rw [if_neg (by simpa [List.isEmpty_iff] using hfp)]
          have hmain := sig_shape_point h0 (rest.take (fmtX a d).toNat)
            (stripT0 (rest.drop (fmtX a d).toNat)) hnz hfp
            (fun x hx => getLast?_stripT0_ne_zero hx)
          refine ⟨?_, hmain.2.1, hmain.2.2⟩
          rw [hmain.1]
          have ht := List.length_take ((fmtX a d).toNat) rest
          have hd2 := List.length_drop ((fmtX a d).toNat) rest
          have hst := length_stripT0_le (rest.drop (fmtX a d).toNat)
          simp only [List.length_cons] at h1
          omega
      · rw [if_neg h2]
        have hhead : (h0 :: rest).head? = some h0 := rfl
        have hsne := stripT0_ne_nil hhead hnz
        cases hstrip : stripT0 (h0 :: rest) with
        | nil => exact absurd hstrip hsne
        | cons h0' rest' =>
          have hh0' : h0' = h0 := by
            have := head?_stripT0 hsne
            rw [hstrip, hhead] at this
            injection this
          rw [hh0'] at hstrip ⊢
          have hmain := sig_shape_leadzeros ((-(fmtX a d)).toNat - 1) h0 rest' hnz
            (fun x hx => getLast?_stripT0_ne_zero (l := h0 :: rest) (by rw [hstrip]; exact hx))
          refine ⟨?_, hmain.2.1, hmain.2.2⟩
          rw [hmain.1]
          have hsl := length_stripT0_le (h0 :: rest)
          rw [hstrip] at hsl
          simp only [List.length_cons] at hsl
          omega
  · rw [if_neg hXr]
    have hsci : sciChars (sigDigitsOf (round10 a).1) (fmtX a d)
        = (digitChar h0 ::
            (if (stripT0 rest).isEmpty then [] else '.' :: (stripT0 rest).map digitChar))
          ++ expChars (fmtX a d) := by
      rw [hD]
      rfl
    have hmain := sig_shape_sci h0 (stripT0 rest) (fmtX a d) hnz
      (fun x hx => getLast?_stripT0_ne_zero hx)
    rw [hsci]
    refine ⟨?_, hmain.2.1, hmain.2.2⟩
    have hsl := length_stripT0_le rest
    exact le_trans hmain.1 (by omega)

theorem fmtDecChars_ok (m : Int) (d : Nat) :
    sigDigitCount (fmtDecChars m d) ≤ 10 ∧ trimmedFrac (fmtDecChars m d) := by
  unfold fmtDecChars
  by_cases hm : m = 0
  · rw [if_pos hm]
    exact ⟨by decide, by decide, by decide⟩
  · rw [if_neg hm]
    have ha : m.natAbs ≠ 0 := by
      simpa using hm
    have hpos := fmtPosChars_ok m.natAbs d ha
    by_cases hneg : m < 0
    · rw [if_pos hneg]
      have hall : ∀ c ∈ ['-'], (fun c => c != 'e') c = true := by
        intro c hc
        rw [List.mem_singleton] at hc
        subst hc
        decide
      have htake : (['-'] ++ fmtPosChars m.natAbs d).takeWhile (fun c => c != 'e')
          = '-' :: (fmtPosChars m.natAbs d).takeWhile (fun c => c != 'e') := by
        rw [takeWhile_append_of_all _ _ _ hall]
        rfl
      constructor
      · unfold sigDigitCount
        rw [htake]
        show ((('-' :: _).filter Char.isDigit).dropWhile (· == '0')).length ≤ 10
        rw [List.filter_cons, if_neg (by decide)]
        exact hpos.1
      · constructor
        · rw [htake]
          intro hdot
          rw [getLast?_cons_ne _ hpos.2.2]
          have hdot' : '.' ∈ (fmtPosChars m.natAbs d).takeWhile (fun c => c != 'e') := by
            rcases List.mem_cons.mp hdot with h | h
            · exact absurd h.symm (by decide)
            · exact h
          exact hpos.2.1.1 hdot'
        · rw [htake, getLast?_cons_ne _ hpos.2.2]
          exact hpos.2.1.2
    · rw [if_neg hneg, List.nil_append]
      exact ⟨hpos.1, hpos.2.1⟩

/-! ### Python dynamic values

Values that flow through the script: the `False` sentinel (`bool false`),
ints, floats (exact decimals `m / 10 ^ d`), strings, lists (a many2one is
`[id, display_name]`, `tag_ids` is a list of ints), and the jsonb dict for
localized tag names. -/

inductive PyVal where
  | none : PyVal
  | bool : Bool → PyVal
  | int : Int → PyVal
  | dec : Int → Nat → PyVal
  | str : String → PyVal
  | list : List PyVal → PyVal
  | dict : List (String × String) → PyVal

/-- `crm.lead` record as returned by `search_read` with the script's
`FIELDS` list (all requested fields are present; `id` is always an int). -/
structure Record where
  id : Int
  name : PyVal
  type : PyVal
  active : PyVal
  probability : PyVal
  expected_revenue : PyVal
  recurring_revenue : PyVal
  priority : PyVal
  date_deadline : PyVal
  date_open : PyVal
  date_closed : PyVal
  date_conversion : PyVal
  create_date : PyVal
  write_date : PyVal
  stage_id : PyVal
  partner_id : PyVal
  email_from : PyVal
  phone : PyVal
  mobile : PyVal
  street : PyVal
  city : PyVal
  zip : PyVal
  country_id : PyVal
  partner_name : PyVal
  user_id : PyVal
  team_id : PyVal
  tag_ids : PyVal
  lost_reason_id : PyVal
  campaign_id : PyVal
  medium_id : PyVal
  source_id : PyVal

/-- `crm.tag` entity (`read` with fields `["name"]`; `id` always returned). -/
structure TagRec where
  id : Int
  name : PyVal

/-- `res.partner` entity (fields of the script's partner bulk read). -/
structure PartnerRec where
  id : Int
  email : PyVal
  phone : PyVal
  mobile : PyVal
  street : PyVal
  city : PyVal
  zip : PyVal
  country_id : PyVal

/-- `crm.stage` entity (fields `["id", "sequence"]`). -/
structure StageRec where
  id : Int
  sequence : PyVal

/-- `res.users` entity (fields `["id", "login"]`). -/
structure UserRec where
  id : Int
  login : PyVal

/-- Modelled from the spec (§6, the remote RPC boundary): the remote Odoo
store, assumed unchanged for the duration of one run.  `leads` is in
ascending-id order as delivered by `order="id asc"`; the entity lists are
keyed by id.  A bulk `read(ids)` returns the stored entities whose ids were
requested. -/
structure Store where
  leads : List Record
  tags : List TagRec
  partners : List PartnerRec
  stages : List StageRec
  users : List UserRec

/-- The fixed CSV header row (`HEADERS`). -/
def HEADERS : List String :=
  [ "id", "opportunity_name", "type", "active", "probability",
    "expected_revenue", "recurring_revenue", "priority",
    "date_deadline", "date_open", "date_closed", "date_conversion",
    "create_date", "write_date",
    "stage_name", "stage_sequence",
    "partner_name", "partner_email", "partner_phone", "partner_mobile",
    "partner_street", "partner_city", "partner_zip", "partner_country",
    "lead_contact_name",
    "email_from", "phone", "mobile",
    "street", "city", "zip", "lead_country",
    "assigned_user_login", "assigned_user_name",
    "sales_team",
    "tags",
    "lost_reason",
    "campaign", "medium", "source" ]

def BATCH_SIZE : Nat := 500

/-- Python `str(value)` for the values that occur in this pipeline.
(Container reprs are stand-ins: no list or dict reaches `str` in the
script's data flow — `flat` unwraps many2one pairs and the tag-name dict is
unwrapped before `str`.) -/
def pyToStr : PyVal → String
  | .none => "None"
  | .bool b => if b then "True" else "False"
  | .int n => toString n
  | .dec m e => fmtDec m e
  | .str s => s
  | .list _ => "[list]"
  | .dict _ => "[dict]"

/-- How `csv.writer` renders one cell: `None` becomes the empty field, all
other values go through `str`. -/
def cellStr : PyVal → String
  | .none => ""
  | v => pyToStr v

/-- Python `" | ".join(...)` / `str.join`. -/
def pyJoin (sep : String) : List String → String
  | [] => ""
  | [x] => x
  | x :: xs => x ++ sep ++ pyJoin sep xs

/-- Python dict lookup `m.get(k, default)` for an int-keyed dict built by
insertion (entity ids are unique in a read reply, so first/last binding
coincide). -/
def alookup {α : Type} (k : Int) : List (Int × α) → Option α
  | [] => Option.none
  | (k', v) :: es => if k = k' then some v else alookup k es

def normIfStr : PyVal → PyVal
  | .str s => .str (pyStrNorm s)
  | v => v

/-- The script's `flat(value, index=1)`: unwrap a 2-element list/tuple at
`index`, map the `False`/`None` sentinels to `""`, and NFC-normalize+strip
any string result.  (All call sites use `index` 0 or 1.) -/
def flat (value : PyVal) (index : Nat := 1) : PyVal :=
  match value with
  | .list l =>
    if l.length = 2 then normIfStr (l.getD index PyVal.none) else normIfStr (.list l)
  | .bool false => .str ""
  | .none => .str ""
  | v => normIfStr v

/-- `r.get("tag_ids") or []`, iterated for the tag ids (a `tag_ids` value is
a list of ints). -/
def tagIdsOf (r : Record) : List Int :=
  match r.tag_ids with
  | .list l => l.filterMap (fun v => match v with | PyVal.int i => some i | _ => Option.none)
  | _ => []

/-- `r["f"][0] if isinstance(r.get("f"), (list, tuple)) else None` — a
many2one value is `[id, display_name]`. -/
def firstIdOf (v : PyVal) : Option Int :=
  match v with
  | .list (.int i :: _) => some i
  | _ => Option.none

inductive Relation where
  | tags
  | partners
  | stages
  | users
deriving DecidableEq

/-- One bulk-resolve RPC issued for a batch: the target relation and the id
list passed to `read`. -/
structure RpcCall where
  rel : Relation
  ids : List Int

/-- All tag ids referenced by the batch, with multiplicity, before the set
comprehension deduplicates them. -/
def rawTagIds (records : List Record) : List Int := records.flatMap tagIdsOf

def rawPartnerIds (records : List Record) : List Int :=
  records.filterMap (fun r => firstIdOf r.partner_id)

def rawStageIds (records : List Record) : List Int :=
  records.filterMap (fun r => firstIdOf r.stage_id)

def rawUserIds (records : List Record) : List Int :=
  records.filterMap (fun r => firstIdOf r.user_id)

def rawRefs : Relation → List Record → List Int
  | .tags => rawTagIds
  | .partners => rawPartnerIds
  | .stages => rawStageIds
  | .users => rawUserIds

/-- `list({tid for r in records for tid in (r.get("tag_ids") or [])})` — the
deduplicated pooled tag ids (a Python set; order is immaterial, only the
underlying id set matters and `dedup` realizes it duplicate-free). -/
def allTagIds (records : List Record) : List Int := (rawTagIds records).dedup

def partnerIdsOf (records : List Record) : List Int := (rawPartnerIds records).dedup

def stageIdsOf (records : List Record) : List Int := (rawStageIds records).dedup

def userIdsOf (records : List Record) : List Int := (rawUserIds records).dedup

/-- Modelled from the spec: `read(ids, fields)` returns the stored entities
whose ids were requested. -/
def readTags (st : Store) (ids : List Int) : List TagRec :=
  st.tags.filter (fun t => decide (t.id ∈ ids))

def readPartners (st : Store) (ids : List Int) : List PartnerRec :=
  st.partners.filter (fun p => decide (p.id ∈ ids))

def readStages (st : Store) (ids : List Int) : List StageRec :=
  st.stages.filter (fun s => decide (s.id ∈ ids))

def readUsers (st : Store) (ids : List Int) : List UserRec :=
  st.users.filter (fun u => decide (u.id ∈ ids))

/-- Lines 148–153: a jsonb tag name arriving as a dict is replaced by its
first value (or `""` when empty), then `str`, NFC normalization and strip. -/
def tagLabel (n : PyVal) : String :=
  pyStrNorm (pyToStr (match n with
    | .dict l => .str ((l.head?.map (fun e => e.2)).getD "")
    | v => v))

def tagNameMap (st : Store) (records : List Record) : List (Int × String) :=
  (readTags st (allTagIds records)).map (fun t => (t.id, tagLabel t.name))

def partnerMapOf (st : Store) (records : List Record) : List (Int × PartnerRec) :=
  (readPartners st (partnerIdsOf records)).map (fun p => (p.id, p))

def stageMapOf (st : Store) (records : List Record) : List (Int × PyVal) :=
  (readStages st (stageIdsOf records)).map (fun s => (s.id, s.sequence))

def userLoginMapOf (st : Store) (records : List Record) : List (Int × PyVal) :=
  (readUsers st (userIdsOf records)).map (fun u => (u.id, u.login))

/-- `partner_map.get(pid, {})` followed by `p.get(field, "")`. -/
def pget (p : Option PartnerRec) (f : PartnerRec → PyVal) : PyVal :=
  match p with
  | some pr => f pr
  | _ => .str ""

/-- Line 218: `f"{r['probability']:.10g}" if r["probability"] is not False
else ""`.  A probability is a float or the `False` sentinel; ints/`True`
format like Python would format them, other shapes are unreachable. -/
def probCell (v : PyVal) : PyVal :=
  match v with
  | .bool b => if b then .str (fmtDec 1 0) else .str ""
  | .dec m e => .str (fmtDec m e)
  | .int n => .str (fmtDec n 0)
  | v => v

/-- Lines 198–262: one output row for one record, given the batch's lookup
maps. -/
def rowFor (tagMap : List (Int × String)) (partnerMap : List (Int × PartnerRec))
    (stageMap userMap : List (Int × PyVal)) (r : Record) : List PyVal :=
  let tag_names := pyJoin " | " ((tagIdsOf r).map (fun tid => (alookup tid tagMap).getD ""))
  let pid := firstIdOf r.partner_id
  let p : Option PartnerRec := pid.bind (fun i => alookup i partnerMap)
  let sid := firstIdOf r.stage_id
  let stage_seq : PyVal := (sid.bind (fun i => alookup i stageMap)).getD (.str "")
  let uidv := firstIdOf r.user_id
  let user_login : PyVal := (uidv.bind (fun i => alookup i userMap)).getD (.str "")
  let user_name := flat r.user_id 1
  [ .int r.id,
    flat r.name 1,
    flat r.type 1,
    r.active,
    probCell r.probability,
    r.expected_revenue,
    r.recurring_revenue,
    flat r.priority 1,
    flat r.date_deadline 1,
    flat r.date_open 1,
    flat r.date_closed 1,
    flat r.date_conversion 1,
    flat r.create_date 1,
    flat r.write_date 1,
    flat r.stage_id 1,
    stage_seq,
    flat r.partner_id 1,
    flat (pget p (fun x => x.email)) 1,
    flat (pget p (fun x => x.phone)) 1,
    flat (pget p (fun x => x.mobile)) 1,
    flat (pget p (fun x => x.street)) 1,
    flat (pget p (fun x => x.city)) 1,
    flat (pget p (fun x => x.zip)) 1,
    flat (pget p (fun x => x.country_id)) 1,
    flat r.partner_name 1,
    flat r.email_from 1,
    flat r.phone 1,
    flat r.mobile 1,
    flat r.street 1,
    flat r.city 1,
    flat r.zip 1,
    flat r.country_id 1,
    user_login,
    user_name,
    flat r.team_id 1,
    .str tag_names,
    flat r.lost_reason_id 1,
    flat r.campaign_id 1,
    flat r.medium_id 1,
    flat r.source_id 1 ]

/-- The bulk-resolve calls one batch issues, in program order; each guarded
by the zero-id-set short-circuit (`if all_tag_ids:` etc.). -/
def batchCalls (records : List Record) : List RpcCall :=
  (if (allTagIds records).isEmpty then [] else [⟨Relation.tags, allTagIds records⟩])
    ++ (if (partnerIdsOf records).isEmpty then [] else [⟨Relation.partners, partnerIdsOf records⟩])
    ++ (if (stageIdsOf records).isEmpty then [] else [⟨Relation.stages, stageIdsOf records⟩])
    ++ (if (userIdsOf records).isEmpty then [] else [⟨Relation.users, userIdsOf records⟩])

/-- The CSV rows one batch writes (when a relation has no referenced ids the
skipped call leaves its map `{}`, which is exactly what the `…MapOf`
functions produce for an empty id pool). -/
def batchRows (st : Store) (records : List Record) : List (List String) :=
  records.map (fun r =>
    (rowFor (tagNameMap st records) (partnerMapOf st records)
      (stageMapOf st records) (userLoginMapOf st records) r).map cellStr)

def processBatch (st : Store) (records : List Record) : List RpcCall × List (List String) :=
  (batchCalls records, batchRows st records)

/-- `search_read(limit=size, offset=offset, order="id asc")` against the
unchanged store. -/
def fetchBatch (leads : List Record) (size offset : Nat) : List Record :=
  (leads.drop offset).take size

/-- `batches = (total + BATCH_SIZE - 1) // BATCH_SIZE`. -/
def numBatches (total size : Nat) : Nat := (total + size - 1) / size

/-- Observable outcome of one run: process exit code, the output file's
rows (`none` when the file is never created), the bulk-resolve calls, the
`exported` counter, and the fetched batches. -/
structure ExportRun where
  exitCode : Nat
  file : Option (List (List String))
  calls : List RpcCall
  exported : Nat
  batches : List (List Record)

/-- The driver (lines 86–268) on the happy path: count, early `sys.exit(0)`
when the total is zero (before the output file is opened), otherwise open
the file, write `HEADERS`, and stream every batch.  Fatal-error paths
(auth failure, RPC/IO exceptions) abort the process and are outside this
model. -/
def runExport (size : Nat) (st : Store) : ExportRun :=
  if st.leads.length = 0 then
    { exitCode := 0, file := Option.none, calls := [], exported := 0, batches := [] }
  else
    let bs := (List.range (numBatches st.leads.length size)).map
      (fun i => fetchBatch st.leads size (i * size))
    { exitCode := 0
      file := some (HEADERS :: bs.flatMap (fun b => batchRows st b))
      calls := bs.flatMap batchCalls
      exported := (bs.map List.length).sum
      batches := bs }

def runExportMain (st : Store) : ExportRun := runExport BATCH_SIZE st

/-! ### Lookup-map correspondence -/

/-- Looking a pooled id up in a map built from a filtered bulk read is the
same as looking the entity up in the store directly. -/
theorem alookup_keyed {α β : Type} (key : α → Int) (f : α → β) :
    ∀ (l : List α) (pool : List Int) (tid : Int), tid ∈ pool →
      alookup tid ((l.filter (fun a => decide (key a ∈ pool))).map (fun a => (key a, f a)))
        = (l.find? (fun a => decide (key a = tid))).map f := by
  intro l
  induction l with
  | nil => intro pool tid _; rfl
  | cons a t ih =>
    intro pool tid htid
    by_cases hk : key a = tid
    · rw [List.filter_cons, if_pos (by rw [hk]; simpa using htid), List.map_cons]
      simp only [alookup]
      rw [if_pos hk.symm, List.find?_cons_of_pos _ (by simpa using hk)]
      rfl
    · rw [List.find?_cons_of_neg _ (by simpa using hk)]
      by_cases hp : key a ∈ pool
      · rw [List.filter_cons, if_pos (by simpa using hp), List.map_cons]
        simp only [alookup]
        rw [if_neg (fun hc => hk hc.symm)]
        exact ih pool tid htid
      · rw [List.filter_cons, if_neg (by simpa using hp)]
        exact ih pool tid htid

/-- The label text a tag id resolves to, determined by the store alone (so
two records referencing the same tag id always render the same text). -/
def resolvedTagLabel (st : Store) (tid : Int) : String :=
  match st.tags.find? (fun t => decide (t.id = tid)) with
  | some t => tagLabel t.name
  | _ => ""

theorem tagMap_lookup (st : Store) (records : List Record) {tid : Int}
    (htid : tid ∈ rawTagIds records) :
    (alookup tid (tagNameMap st records)).getD "" = resolvedTagLabel st tid := by
  have hpool : tid ∈ allTagIds records := List.mem_dedup.mpr htid
  have h2 : alookup tid (tagNameMap st records)
      = (st.tags.find? (fun t => decide (t.id = tid))).map (fun t => tagLabel t.name) :=
    alookup_keyed (fun t : TagRec => t.id) (fun t => tagLabel t.name)
      st.tags (allTagIds records) tid hpool
  rw [h2]
  unfold resolvedTagLabel
  cases st.tags.find? (fun t => decide (t.id = tid)) with
  | none => rfl
  | some t => rfl

theorem partnerMap_lookup (st : Store) (records : List Record) {pid : Int}
    (hpid : pid ∈ rawPartnerIds records) :
    alookup pid (partnerMapOf st records)
      = st.partners.find? (fun p => decide (p.id = pid)) := by
  have hpool : pid ∈ partnerIdsOf records := List.mem_dedup.mpr hpid
  have h2 : alookup pid (partnerMapOf st records)
      = (st.partners.find? (fun p => decide (p.id = pid))).map (fun p => p) :=
    alookup_keyed (fun p : PartnerRec => p.id) (fun p => p)
      st.partners (partnerIdsOf records) pid hpool
  rw [h2, Option.map_id']

theorem stageMap_lookup (st : Store) (records : List Record) {sid : Int}
    (hsid : sid ∈ rawStageIds records) :
    alookup sid (stageMapOf st records)
      = (st.stages.find? (fun s => decide (s.id = sid))).map (fun s => s.sequence) :=
  alookup_keyed (fun s : StageRec => s.id) (fun s => s.sequence)
    st.stages (stageIdsOf records) sid (List.mem_dedup.mpr hsid)

theorem userMap_lookup (st : Store) (records : List Record) {uid : Int}
    (huid : uid ∈ rawUserIds records) :
    alookup uid (userLoginMapOf st records)
      = (st.users.find? (fun u => decide (u.id = uid))).map (fun u => u.login) :=
  alookup_keyed (fun u : UserRec => u.id) (fun u => u.login)
    st.users (userIdsOf records) uid (List.mem_dedup.mpr huid)

/-! ### Batch-window arithmetic -/

theorem lt_div_succ_mul (a b : Nat) (hb : 0 < b) : a < (a / b + 1) * b := by
  have h1 := Nat.div_add_mod a b
  have h2 := Nat.mod_lt a hb
  have h3 : (a / b + 1) * b = b * (a / b) + b := by ring
  obtain ⟨p, hp⟩ : ∃ p, b * (a / b) = p := ⟨_, rfl⟩
  rw [h3, hp]
  rw [hp] at h1
  omega

theorem numBatches_eq (total size : Nat) (hs : 0 < size) (h0 : total ≠ 0) :
    numBatches total size = (total - 1) / size + 1 := by
  unfold numBatches
  have h1 : total + size - 1 = (total - 1) + size := by omega
  rw [h1, Nat.add_div_right _ hs]

theorem numBatches_mul_ge (total size : Nat) (hs : 0 < size) (h0 : total ≠ 0) :
    total ≤ numBatches total size * size := by
  rw [numBatches_eq total size hs h0]
  have := lt_div_succ_mul (total - 1) size hs
  omega

theorem numBatches_pred_mul_lt (total size : Nat) (hs : 0 < size) (h0 : total ≠ 0) :
    (numBatches total size - 1) * size < total := by
  rw [numBatches_eq total size hs h0]
  simp only [Nat.add_sub_cancel]
  have := Nat.div_mul_le_self (total - 1) size
  omega

theorem numBatches_of_mod (total size : Nat) (hs : 0 < size)
    (hmod : total % size ≠ 0) :
    numBatches total size = total / size + 1 := by
  unfold numBatches
  have hqr := Nat.div_add_mod total size
  have hrlt : total % size < size := Nat.mod_lt _ hs
  obtain ⟨p, hp⟩ : ∃ p, size * (total / size) = p := ⟨_, rfl⟩
  rw [hp] at hqr
  have hexp : (total / size + 1) * size = size * (total / size) + size := by ring
  have h1 : total + size - 1 = (total % size - 1) + (total / size + 1) * size := by
    rw [hexp, hp]
    omega
  rw [h1, Nat.add_mul_div_right _ _ hs, Nat.div_eq_of_lt (by omega)]
  omega

/-- The batch windows tile the lead list exactly. -/
theorem windows_flatten (size : Nat) (hs : 0 < size) :
    ∀ (n : Nat) (leads : List Record), numBatches leads.length size = n →
      ((List.range n).map (fun i => fetchBatch leads size (i * size))).flatten = leads := by
  intro n
  induction n with
  | zero =>
    intro leads h
    have hlen : leads.length = 0 := by
      unfold numBatches at h
      rcases Nat.eq_zero_or_pos leads.length with h0 | h0
      · exact h0
      · exfalso
        have hlt : leads.length + size - 1 < size := by
          by_contra hge
          have h1 : 1 ≤ (leads.length + size - 1) / size := by
            rw [Nat.le_div_iff_mul_le hs, one_mul]
            omega
          omega
        omega
    rw [List.length_eq_zero] at hlen
    subst hlen
    rfl
  | succ n ih =>
    intro leads h
    rw [List.range_succ_eq_map, List.map_cons, List.map_map, List.flatten_cons]
    have hw0 : fetchBatch leads size (0 * size) = leads.take size := by
      unfold fetchBatch
      simp
    have hshift : ∀ i ∈ List.range n,
        ((fun i => fetchBatch leads size (i * size)) ∘ Nat.succ) i
          = fetchBatch (leads.drop size) size (i * size) := by
      intro i _
      show fetchBatch leads size (Nat.succ i * size) = _
      unfold fetchBatch
      have hidx : Nat.succ i * size = size + i * size := by
        rw [Nat.succ_mul, Nat.add_comm]
      rw [hidx, List.drop_drop]
    rw [hw0, List.map_congr_left hshift]
    have hnb : numBatches (leads.drop size).length size = n := by
      rw [List.length_drop]
      by_cases hle : leads.length ≤ size
      · have hz : leads.length - size = 0 := by omega
        rw [hz]
        have hn0 : n = 0 := by
          unfold numBatches at h
          have hlt2 : leads.length + size - 1 < 2 * size := by omega
          have hq : (leads.length + size - 1) / size < 2 := by
            by_contra hge
            have h2 : 2 * size ≤ leads.length + size - 1 := by
              have := (Nat.le_div_iff_mul_le hs).mp (by omega : 2 ≤ (leads.length + size - 1) / size)
              omega
            omega
          omega
        subst hn0
        unfold numBatches
        rw [Nat.div_eq_of_lt (by omega)]
      · have hlpos : leads.length ≠ 0 := by omega
        have hdpos : leads.length - size ≠ 0 := by omega
        rw [numBatches_eq _ _ hs hdpos]
        rw [numBatches_eq _ _ hs hlpos] at h
        have h1 : leads.length - size - 1 + size = leads.length - 1 := by omega
        have h2 : (leads.length - size - 1 + size) / size = (leads.length - size - 1) / size + 1 :=
          Nat.add_div_right _ hs
        rw [h1] at h2
        omega
    rw [ih (leads.drop size) hnb]
    exact List.take_append_drop size leads

theorem sum_map_length {α : Type} (l : List (List α)) :
    (l.map List.length).sum = l.flatten.length := by
  rw [List.length_flatten]

/-! ### Per-relation call log -/

theorem filter_batchCalls (records : List Record) (rel : Relation) :
    (batchCalls records).filter (fun c => decide (c.rel = rel))
      = if (rawRefs rel records).dedup.isEmpty then []
        else [⟨rel, (rawRefs rel records).dedup⟩] := by
  cases rel <;>
    (unfold batchCalls allTagIds partnerIdsOf stageIdsOf userIdsOf
     split_ifs <;>
       simp_all [rawRefs, List.filter_append, List.filter_cons, List.filter_nil])

/-! ### Concrete fixtures -/

/-- A minimal lead: every optional field carries the store's `False`
sentinel. -/
def baseRecord (i : Int) : Record :=
  { id := i, name := PyVal.str "Lead", type := PyVal.str "opportunity",
    active := PyVal.bool true, probability := PyVal.bool false,
    expected_revenue := PyVal.bool false, recurring_revenue := PyVal.bool false,
    priority := PyVal.bool false, date_deadline := PyVal.bool false,
    date_open := PyVal.bool false, date_closed := PyVal.bool false,
    date_conversion := PyVal.bool false, create_date := PyVal.bool false,
    write_date := PyVal.bool false, stage_id := PyVal.bool false,
    partner_id := PyVal.bool false, email_from := PyVal.bool false,
    phone := PyVal.bool false, mobile := PyVal.bool false,
    street := PyVal.bool false, city := PyVal.bool false,
    zip := PyVal.bool false, country_id := PyVal.bool false,
    partner_name := PyVal.bool false, user_id := PyVal.bool false,
    team_id := PyVal.bool false, tag_ids := PyVal.bool false,
    lost_reason_id := PyVal.bool false, campaign_id := PyVal.bool false,
    medium_id := PyVal.bool false, source_id := PyVal.bool false }

def emptyStore : Store := ⟨[], [], [], [], []⟩

/-- One lead whose `expected_revenue` is the false sentinel. -/
def st2 : Store := ⟨[baseRecord 1], [], [], [], []⟩

/-! ### Claims -/

/-- C1 as stated is false of the code: with a zero total the script calls
`sys.exit(0)` (line 92) before `open(OUTPUT_FILE)` (line 120), so the
output file is never created and in particular contains no header row.
Exit code 0 and zero data rows do hold. -/
theorem c1_counterexample :
    (runExport BATCH_SIZE emptyStore).exitCode = 0 ∧
      (runExport BATCH_SIZE emptyStore).file ≠ some [HEADERS] :=
  ⟨rfl, fun h => Option.noConfusion h⟩

/-- C1 (amended): if the initial total count is zero the program terminates
with exit code 0, exports zero rows, and creates no output file at all
(hence no header row either). -/
theorem c1_zero_total (size : Nat) (st : Store) (h : st.leads.length = 0) :
    (runExport size st).exitCode = 0 ∧ (runExport size st).file = Option.none ∧
      (runExport size st).exported = 0 := by
  unfold runExport
  rw [if_pos h]
  exact ⟨rfl, rfl, rfl⟩

/-- Witness for C1 at the empty store. -/
theorem c1_witness :
    emptyStore.leads.length = 0 ∧
      ((runExport BATCH_SIZE emptyStore).exitCode = 0 ∧
        (runExport BATCH_SIZE emptyStore).file = Option.none ∧
        (runExport BATCH_SIZE emptyStore).exported = 0) :=
  ⟨rfl, c1_zero_total BATCH_SIZE emptyStore rfl⟩

/-- C2 as stated is false of the code: the exported lead's
`expected_revenue` equals the false sentinel, yet its CSV cell (column 5)
is the literal false marker `"False"`, not the empty string — lines
219–220 pass `r["expected_revenue"]` / `r["recurring_revenue"]` through
raw instead of normalizing the sentinel. -/
theorem c2_counterexample :
    (st2.leads.getD 0 (baseRecord 0)).expected_revenue = PyVal.bool false ∧
      (((runExport BATCH_SIZE st2).file.getD []).getD 1 []).getD 5 "?" = "False" ∧
      "False" ≠ "" := by
  refine ⟨rfl, ?_, by decide⟩
  rfl

/-- C2 (amended): every column produced through `flat` renders the false
sentinel as the empty string, and so does the probability column; but the
`expected_revenue` and `recurring_revenue` columns pass the source value
through unchanged, so a false sentinel there is rendered as the literal
marker `"False"`. -/
theorem c2_sentinel (tm : List (Int × String)) (pm : List (Int × PartnerRec))
    (sm um : List (Int × PyVal)) (r : Record) (idx : Nat) :
    flat (PyVal.bool false) idx = PyVal.str "" ∧
      (r.probability = PyVal.bool false →
        ((rowFor tm pm sm um r).map cellStr).getD 4 "?" = "") ∧
      (r.expected_revenue = PyVal.bool false →
        ((rowFor tm pm sm um r).map cellStr).getD 5 "?" = "False") ∧
      (r.recurring_revenue = PyVal.bool false →
        ((rowFor tm pm sm um r).map cellStr).getD 6 "?" = "False") := by
  refine ⟨rfl, ?_, ?_, ?_⟩
  · intro hp
    have h4 : ((rowFor tm pm sm um r).map cellStr).getD 4 "?"
        = cellStr (probCell r.probability) := rfl
    rw [h4, hp]
    rfl
  · intro hp
    have h5 : ((rowFor tm pm sm um r).map cellStr).getD 5 "?"
        = cellStr r.expected_revenue := rfl
    rw [h5, hp]
    rfl
  · intro hp
    have h6 : ((rowFor tm pm sm um r).map cellStr).getD 6 "?"
        = cellStr r.recurring_revenue := rfl
    rw [h6, hp]
    rfl

/-- Witness for the amended C2 at a concrete record. -/
theorem c2_witness :
    flat (PyVal.bool false) 1 = PyVal.str "" ∧
      ((rowFor [] [] [] [] (baseRecord 1)).map cellStr).getD 4 "?" = "" ∧
      ((rowFor [] [] [] [] (baseRecord 1)).map cellStr).getD 5 "?" = "False" ∧
      ((rowFor [] [] [] [] (baseRecord 1)).map cellStr).getD 6 "?" = "False" :=
  ⟨(c2_sentinel [] [] [] [] (baseRecord 1) 1).1,
    (c2_sentinel [] [] [] [] (baseRecord 1) 1).2.1 rfl,
    (c2_sentinel [] [] [] [] (baseRecord 1) 1).2.2.1 rfl,
    (c2_sentinel [] [] [] [] (baseRecord 1) 1).2.2.2 rfl⟩

/-- C8: the text-normalization step (NFC composition then strip) is
idempotent, and the decomposed sequence `e` + U+0301 normalizes to the
same single code point as the precomposed `é` (U+00E9). -/
theorem c8_nfc_idempotent :
    (∀ s : String, pyStrNorm (pyStrNorm s) = pyStrNorm s) ∧
      pyStrNorm (['e', Char.ofNat 769].asString) = [Char.ofNat 233].asString ∧
      pyStrNorm ([Char.ofNat 233].asString) = [Char.ofNat 233].asString ∧
      ([Char.ofNat 233].asString).data.length = 1 :=
  ⟨pyStrNorm_idem, by decide, by decide, rfl⟩

/-- C9: the probability column is the empty string exactly when the source
value is the false sentinel; a float probability `m / 10 ^ e` renders via
`%.10g`, whose output carries at most 10 significant digits with trailing
insignificant fractional zeros (and any bare decimal point) trimmed. -/
theorem c9_probability (tm : List (Int × String)) (pm : List (Int × PartnerRec))
    (sm um : List (Int × PyVal)) (r : Record) :
    (r.probability = PyVal.bool false →
      ((rowFor tm pm sm um r).map cellStr).getD 4 "?" = "") ∧
      (∀ m e, r.probability = PyVal.dec m e →
        ((rowFor tm pm sm um r).map cellStr).getD 4 "?" = fmtDec m e ∧
          sigDigitCount (fmtDec m e).data ≤ 10 ∧ trimmedFrac (fmtDec m e).data) := by
  have h4 : ((rowFor tm pm sm um r).map cellStr).getD 4 "?"
      = cellStr (probCell r.probability) := rfl
  refine ⟨?_, ?_⟩
  · intro hp
    rw [h4, hp]
    rfl
  · intro m e hp
    rw [h4, hp]
    exact ⟨rfl, (fmtDecChars_ok m e).1, (fmtDecChars_ok m e).2⟩

/-- A lead whose probability is the float 33.33 (exactly 3333 / 10²). -/
def r9 : Record := { baseRecord 1 with probability := PyVal.dec 3333 2 }

/-- Witness for C9: at probability 33.33 the cell is `"33.33"`. -/
theorem c9_witness :
    (((rowFor [] [] [] [] r9).map cellStr).getD 4 "?" = fmtDec 3333 2 ∧
        sigDigitCount (fmtDec 3333 2).data ≤ 10 ∧ trimmedFrac (fmtDec 3333 2).data) ∧
      fmtDec 3333 2 = "33.33" :=
  ⟨(c9_probability [] [] [] [] r9).2 3333 2 rfl, by decide⟩

/-- C3: per batch and relation, when any ids are referenced the script
issues exactly one bulk-resolve call for that relation, whose id list is
duplicate-free, contains exactly the ids referenced anywhere in the batch
(pooled across all records, including the multi-reference tag field), and
has length `m` = the number of distinct referenced ids; for the singular
relations `m` is at most the number of records `k`. -/
theorem c3_dedup_bulk_calls (st : Store) (records : List Record) (rel : Relation)
    (h : rawRefs rel records ≠ []) :
    ((processBatch st records).1.filter (fun c => decide (c.rel = rel))).length = 1 ∧
      ∀ c ∈ (processBatch st records).1, c.rel = rel →
        c.ids.Nodup ∧ (∀ x, x ∈ c.ids ↔ x ∈ rawRefs rel records) ∧
          c.ids.length = (rawRefs rel records).dedup.length ∧
          (rel ≠ Relation.tags → c.ids.length ≤ records.length) := by
  simp only [processBatch]
  have hfil := filter_batchCalls records rel
  have hie : (rawRefs rel records).dedup.isEmpty = false := by
    apply Bool.eq_false_iff.mpr
    intro hb
    exact h ((List.dedup_eq_nil _).mp (List.isEmpty_iff.mp hb))
  rw [hie] at hfil
  rw [if_neg (by simp)] at hfil
  constructor
  · rw [hfil]
    rfl
  · intro c hc hcrel
    have hcf : c ∈ (batchCalls records).filter (fun c => decide (c.rel = rel)) :=
      List.mem_filter.mpr ⟨hc, by simpa using hcrel⟩
    rw [hfil, List.mem_singleton] at hcf
    subst hcf
    refine ⟨List.nodup_dedup _, fun x => List.mem_dedup, rfl, ?_⟩
    intro hrel_ne
    cases rel with
    | tags => exact absurd rfl hrel_ne
    | partners =>
      calc (rawRefs Relation.partners records).dedup.length
          ≤ (rawRefs Relation.partners records).length :=
            (List.dedup_sublist _).length_le
        _ ≤ records.length := List.length_filterMap_le _ _
    | stages =>
      calc (rawRefs Relation.stages records).dedup.length
          ≤ (rawRefs Relation.stages records).length :=
            (List.dedup_sublist _).length_le
        _ ≤ records.length := List.length_filterMap_le _ _
    | users =>
      calc (rawRefs Relation.users records).dedup.length
          ≤ (rawRefs Relation.users records).length :=
            (List.dedup_sublist _).length_le
        _ ≤ records.length := List.length_filterMap_le _ _

/-- Two leads of one batch sharing tag ids and a partner id. -/
def rA : Record :=
  { baseRecord 1 with
    tag_ids := PyVal.list [PyVal.int 3, PyVal.int 4]
    partner_id := PyVal.list [PyVal.int 5, PyVal.str "Acme"] }

def rB : Record :=
  { baseRecord 2 with
    tag_ids := PyVal.list [PyVal.int 3, PyVal.int 3, PyVal.int 4]
    partner_id := PyVal.list [PyVal.int 5, PyVal.str "Acme"] }

/-- Witness for C3 on a concrete two-record batch with repeated tag ids. -/
theorem c3_witness :
    rawRefs Relation.tags [rA, rB] ≠ [] ∧
      ((((processBatch st2 [rA, rB]).1.filter
          (fun c => decide (c.rel = Relation.tags))).length = 1) ∧
        ∀ c ∈ (processBatch st2 [rA, rB]).1, c.rel = Relation.tags →
          c.ids.Nodup ∧ (∀ x, x ∈ c.ids ↔ x ∈ rawRefs Relation.tags [rA, rB]) ∧
            c.ids.length = (rawRefs Relation.tags [rA, rB]).dedup.length ∧
            (Relation.tags ≠ Relation.tags → c.ids.length ≤ ([rA, rB] : List Record).length)) :=
  ⟨by decide, c3_dedup_bulk_calls st2 [rA, rB] Relation.tags (by decide)⟩

/-- C4: per batch and relation, if no record in the batch references any id
under that relation, no bulk-resolve call is issued for it. -/
theorem c4_zero_ref_no_call (st : Store) (records : List Record) (rel : Relation)
    (h : rawRefs rel records = []) :
    (processBatch st records).1.filter (fun c => decide (c.rel = rel)) = [] ∧
      ∀ c ∈ (processBatch st records).1, c.rel ≠ rel := by
  simp only [processBatch]
  have hfil := filter_batchCalls records rel
  have hie : (rawRefs rel records).dedup.isEmpty = true := by
    rw [List.isEmpty_iff, List.dedup_eq_nil]
    exact h
  rw [hie, if_pos rfl] at hfil
  refine ⟨hfil, ?_⟩
  intro c hc hrel
  have hcf : c ∈ (batchCalls records).filter (fun c => decide (c.rel = rel)) :=
    List.mem_filter.mpr ⟨hc, by simpa using hrel⟩
  rw [hfil] at hcf
  exact List.not_mem_nil c hcf

/-- Witness for C4: a batch whose single lead has no partner reference. -/
theorem c4_witness :
    rawRefs Relation.partners [baseRecord 1] = [] ∧
      ((processBatch st2 [baseRecord 1]).1.filter
          (fun c => decide (c.rel = Relation.partners)) = [] ∧
        ∀ c ∈ (processBatch st2 [baseRecord 1]).1, c.rel ≠ Relation.partners) :=
  ⟨rfl, c4_zero_ref_no_call st2 [baseRecord 1] Relation.partners rfl⟩

/-- C5: a record's tags cell is the resolved labels of its tag ids in the
record's original order joined with " | "; the label of each id is
`resolvedTagLabel`, a function of the store and the id alone — so two
records referencing the same tag id get the identical text — and an id
resolving to no stored tag contributes the empty segment while its
position is kept (the rendered label list has the same length as the
record's tag id list). -/
theorem c5_tags_column (st : Store) (records : List Record) (i : Nat) (r : Record)
    (h : records.get? i = some r) :
    (processBatch st records).2.get? i
        = some ((rowFor (tagNameMap st records) (partnerMapOf st records)
            (stageMapOf st records) (userLoginMapOf st records) r).map cellStr) ∧
      ((rowFor (tagNameMap st records) (partnerMapOf st records)
          (stageMapOf st records) (userLoginMapOf st records) r).map cellStr).getD 35 "?"
        = pyJoin " | " ((tagIdsOf r).map (resolvedTagLabel st)) ∧
      ((tagIdsOf r).map (resolvedTagLabel st)).length = (tagIdsOf r).length ∧
      ∀ tid, st.tags.find? (fun t => decide (t.id = tid)) = Option.none →
        resolvedTagLabel st tid = "" := by
  refine ⟨?_, ?_, List.length_map _ _, ?_⟩
  · simp only [processBatch, batchRows]
    rw [List.get?_map, h]
    rfl
  · have h35 : ((rowFor (tagNameMap st records) (partnerMapOf st records)
        (stageMapOf st records) (userLoginMapOf st records) r).map cellStr).getD 35 "?"
          = pyJoin " | " ((tagIdsOf r).map
              (fun tid => (alookup tid (tagNameMap st records)).getD "")) := rfl
    rw [h35]
    congr 1
    apply List.map_congr_left
    intro tid htid
    exact tagMap_lookup st records (List.mem_flatMap.mpr ⟨r, List.get?_mem h, htid⟩)
  · intro tid hfind
    unfold resolvedTagLabel
    rw [hfind]

def tagUrgente : TagRec := ⟨3, PyVal.str "Urgente"⟩

def tagCliente : TagRec := ⟨4, PyVal.dict [("es_ES", "Cliente")]⟩

/-- A store with two leads sharing tag ids 3 and 4. -/
def stW : Store := ⟨[rA, rB], [tagUrgente, tagCliente], [], [], []⟩

/-- Witness for C5: concrete batch, both rows' tag cells are built from the
same store-level labels; evaluation gives "Urgente | Cliente". -/
theorem c5_witness :
    ([rA, rB] : List Record).get? 0 = some rA ∧
      ((processBatch stW [rA, rB]).2.get? 0
          = some ((rowFor (tagNameMap stW [rA, rB]) (partnerMapOf stW [rA, rB])
              (stageMapOf stW [rA, rB]) (userLoginMapOf stW [rA, rB]) rA).map cellStr) ∧
        ((rowFor (tagNameMap stW [rA, rB]) (partnerMapOf stW [rA, rB])
            (stageMapOf stW [rA, rB]) (userLoginMapOf stW [rA, rB]) rA).map cellStr).getD 35 "?"
          = pyJoin " | " ((tagIdsOf rA).map (resolvedTagLabel stW)) ∧
        ((tagIdsOf rA).map (resolvedTagLabel stW)).length = (tagIdsOf rA).length ∧
        ∀ tid, stW.tags.find? (fun t => decide (t.id = tid)) = Option.none →
          resolvedTagLabel stW tid = "") ∧
      pyJoin " | " ((tagIdsOf rA).map (resolvedTagLabel stW)) = "Urgente | Cliente" :=
  ⟨rfl, c5_tags_column stW [rA, rB] 0 rA rfl, by decide⟩

/-- A lead referencing only the dict-named tag 4. -/
def rC : Record := { baseRecord 3 with tag_ids := PyVal.list [PyVal.int 4] }

/-- C10: when a resolved tag's name arrives as a (localized) mapping, the
exported tag label is the mapping's first value, NFC-normalized and
trimmed; an empty mapping yields the empty string. -/
theorem c10_tag_dict_label (st : Store) (records : List Record) (i : Nat) (r : Record)
    (tid : Int) (t : TagRec) (l : List (String × String))
    (h : records.get? i = some r) (htid : tagIdsOf r = [tid])
    (hfind : st.tags.find? (fun x => decide (x.id = tid)) = some t)
    (hname : t.name = PyVal.dict l) :
    (processBatch st records).2.get? i
        = some ((rowFor (tagNameMap st records) (partnerMapOf st records)
            (stageMapOf st records) (userLoginMapOf st records) r).map cellStr) ∧
      (l = [] →
        ((rowFor (tagNameMap st records) (partnerMapOf st records)
            (stageMapOf st records) (userLoginMapOf st records) r).map cellStr).getD 35 "?"
          = "") ∧
      ∀ k v rest, l = (k, v) :: rest →
        ((rowFor (tagNameMap st records) (partnerMapOf st records)
            (stageMapOf st records) (userLoginMapOf st records) r).map cellStr).getD 35 "?"
          = pyStrNorm v := by
  have hmem : tid ∈ rawTagIds records :=
    List.mem_flatMap.mpr ⟨r, List.get?_mem h, by rw [htid]; exact List.mem_singleton_self tid⟩
  have hcell : ((rowFor (tagNameMap st records) (partnerMapOf st records)
      (stageMapOf st records) (userLoginMapOf st records) r).map cellStr).getD 35 "?"
        = tagLabel t.name := by
    have h35 : ((rowFor (tagNameMap st records) (partnerMapOf st records)
        (stageMapOf st records) (userLoginMapOf st records) r).map cellStr).getD 35 "?"
          = pyJoin " | " ((tagIdsOf r).map
              (fun tid => (alookup tid (tagNameMap st records)).getD "")) := rfl
    rw [h35, htid]
    show (alookup tid (tagNameMap st records)).getD "" = tagLabel t.name
    rw [tagMap_lookup st records hmem]
    unfold resolvedTagLabel
    rw [hfind]
  refine ⟨?_, ?_, ?_⟩
  · simp only [processBatch, batchRows]
    rw [List.get?_map, h]
    rfl
  · intro hl
    rw [hcell, hname, hl]
    rfl
  · intro k v rest hl
    rw [hcell, hname, hl]
    rfl

/-- Witness for C10 at the concrete store: tag 4's name is the mapping
`es_ES ↦ Cliente` and the rendered cell is `"Cliente"`. -/
theorem c10_witness :
    ((processBatch stW [rC]).2.get? 0
        = some ((rowFor (tagNameMap stW [rC]) (partnerMapOf stW [rC])
            (stageMapOf stW [rC]) (userLoginMapOf stW [rC]) rC).map cellStr) ∧
      ([("es_ES", "Cliente")] = ([] : List (String × String)) →
        ((rowFor (tagNameMap stW [rC]) (partnerMapOf stW [rC])
            (stageMapOf stW [rC]) (userLoginMapOf stW [rC]) rC).map cellStr).getD 35 "?"
          = "") ∧
      ∀ k v rest, [("es_ES", "Cliente")] = (k, v) :: rest →
        ((rowFor (tagNameMap stW [rC]) (partnerMapOf stW [rC])
            (stageMapOf stW [rC]) (userLoginMapOf stW [rC]) rC).map cellStr).getD 35 "?"
          = pyStrNorm v) ∧
      pyStrNorm "Cliente" = "Cliente" :=
  ⟨c10_tag_dict_label stW [rC] 0 rC 4 tagCliente [("es_ES", "Cliente")] rfl rfl rfl rfl,
    by decide⟩

/-- The rendered CSV row the script writes for `r` within its batch. -/
def rowOf (st : Store) (records : List Record) (r : Record) : List String :=
  (rowFor (tagNameMap st records) (partnerMapOf st records)
    (stageMapOf st records) (userLoginMapOf st records) r).map cellStr

/-- One lead with an embedded partner pair `[5, "Acme"]` but an empty
partner store (the referenced partner no longer exists). -/
def st6 : Store := ⟨[rA], [], [], [], []⟩

/-- C6 as stated is false of the code: when a singular reference id
resolves to no entity in the batch's lookup map, the label column is NOT
empty — it still shows the display label embedded in the record's
`[id, label]` pair (line 232 uses `flat(r["partner_id"])`, not the lookup
map), here `"Acme"`.  Only the lookup-derived columns go empty. -/
theorem c6_counterexample :
    (st6.leads.getD 0 (baseRecord 0)).partner_id
        = PyVal.list [PyVal.int 5, PyVal.str "Acme"] ∧
      st6.partners.find? (fun p => decide (p.id = 5)) = Option.none ∧
      (((runExport BATCH_SIZE st6).file.getD []).getD 1 []).getD 16 "?" = "Acme" ∧
      "Acme" ≠ "" :=
  ⟨rfl, rfl, rfl, by decide⟩

/-- C6 (amended): the record's row is always written.  An absent singular
reference renders every corresponding column empty.  A referenced id that
resolves to no entity in the batch's lookup map renders every
lookup-derived column (partner email/phone/mobile/street/city/zip/country,
stage sequence, user login) as the empty string — never an error, never a
null marker — while the label columns keep the display label embedded in
the record's `[id, label]` pair. -/
theorem c6_unresolved_refs (st : Store) (records : List Record) (i : Nat) (r : Record)
    (h : records.get? i = some r) :
    (processBatch st records).2.get? i = some (rowOf st records r) ∧
      (processBatch st records).2.length = records.length ∧
      (r.partner_id = PyVal.bool false →
        (rowOf st records r).getD 16 "?" = "" ∧ (rowOf st records r).getD 17 "?" = "" ∧
          (rowOf st records r).getD 18 "?" = "" ∧ (rowOf st records r).getD 19 "?" = "" ∧
          (rowOf st records r).getD 20 "?" = "" ∧ (rowOf st records r).getD 21 "?" = "" ∧
          (rowOf st records r).getD 22 "?" = "" ∧ (rowOf st records r).getD 23 "?" = "") ∧
      (∀ pid lbl, r.partner_id = PyVal.list [PyVal.int pid, PyVal.str lbl] →
        st.partners.find? (fun p => decide (p.id = pid)) = Option.none →
        (rowOf st records r).getD 16 "?" = pyStrNorm lbl ∧
          (rowOf st records r).getD 17 "?" = "" ∧ (rowOf st records r).getD 18 "?" = "" ∧
          (rowOf st records r).getD 19 "?" = "" ∧ (rowOf st records r).getD 20 "?" = "" ∧
          (rowOf st records r).getD 21 "?" = "" ∧ (rowOf st records r).getD 22 "?" = "" ∧
          (rowOf st records r).getD 23 "?" = "") ∧
      (r.stage_id = PyVal.bool false →
        (rowOf st records r).getD 14 "?" = "" ∧ (rowOf st records r).getD 15 "?" = "") ∧
      (∀ sid lbl, r.stage_id = PyVal.list [PyVal.int sid, PyVal.str lbl] →
        st.stages.find? (fun s => decide (s.id = sid)) = Option.none →
        (rowOf st records r).getD 14 "?" = pyStrNorm lbl ∧
          (rowOf st records r).getD 15 "?" = "") ∧
      (r.user_id = PyVal.bool false →
        (rowOf st records r).getD 32 "?" = "" ∧ (rowOf st records r).getD 33 "?" = "") ∧
      (∀ uid lbl, r.user_id = PyVal.list [PyVal.int uid, PyVal.str lbl] →
        st.users.find? (fun u => decide (u.id = uid)) = Option.none →
        (rowOf st records r).getD 32 "?" = "" ∧
          (rowOf st records r).getD 33 "?" = pyStrNorm lbl) := by
  have h16 : (rowOf st records r).getD 16 "?" = cellStr (flat r.partner_id 1) := rfl
  have h14 : (rowOf st records r).getD 14 "?" = cellStr (flat r.stage_id 1) := rfl
  have h33 : (rowOf st records r).getD 33 "?" = cellStr (flat r.user_id 1) := rfl
  refine ⟨?_, ?_, ?_, ?_, ?_, ?_, ?_, ?_⟩
  · simp only [processBatch, batchRows]
    rw [List.get?_map, h]
    rfl
  · simp only [processBatch, batchRows, List.length_map]
  · intro hp
    have hb : (firstIdOf r.partner_id).bind
        (fun j => alookup j (partnerMapOf st records)) = Option.none := by
      rw [hp]
      rfl
    refine ⟨by rw [h16, hp]; rfl, ?_, ?_, ?_, ?_, ?_, ?_, ?_⟩ <;>
      · show cellStr (flat (pget ((firstIdOf r.partner_id).bind
            (fun j => alookup j (partnerMapOf st records))) _) 1) = ""
        rw [hb]
        rfl
  · intro pid lbl hpp hfind
    have hpid : firstIdOf r.partner_id = some pid := by rw [hpp]; rfl
    have hmem : pid ∈ rawPartnerIds records :=
      List.mem_filterMap.mpr ⟨r, List.get?_mem h, hpid⟩
    have hb : (firstIdOf r.partner_id).bind
        (fun j => alookup j (partnerMapOf st records)) = Option.none := by
      rw [hpid]
      show alookup pid (partnerMapOf st records) = Option.none
      rw [partnerMap_lookup st records hmem, hfind]
    refine ⟨by rw [h16, hpp]; rfl, ?_, ?_, ?_, ?_, ?_, ?_, ?_⟩ <;>
      · show cellStr (flat (pget ((firstIdOf r.partner_id).bind
            (fun j => alookup j (partnerMapOf st records))) _) 1) = ""
        rw [hb]
        rfl
  · intro hs
    have hb : (firstIdOf r.stage_id).bind
        (fun j => alookup j (stageMapOf st records)) = Option.none := by
      rw [hs]
      rfl
    refine ⟨by rw [h14, hs]; rfl, ?_⟩
    show cellStr (((firstIdOf r.stage_id).bind
        (fun j => alookup j (stageMapOf st records))).getD (PyVal.str "")) = ""
    rw [hb]
    rfl
  · intro sid lbl hss hfind
    have hsid : firstIdOf r.stage_id = some sid := by rw [hss]; rfl
    have hmem : sid ∈ rawStageIds records :=
      List.mem_filterMap.mpr ⟨r, List.get?_mem h, hsid⟩
    have hb : (firstIdOf r.stage_id).bind
        (fun j => alookup j (stageMapOf st records)) = Option.none := by
      rw [hsid]
      show alookup sid (stageMapOf st records) = Option.none
      rw [stageMap_lookup st records hmem, hfind]
      rfl
    refine ⟨by rw [h14, hss]; rfl, ?_⟩
    show cellStr (((firstIdOf r.stage_id).bind
        (fun j => alookup j (stageMapOf st records))).getD (PyVal.str "")) = ""
    rw [hb]
    rfl
  · intro hu
    have hb : (firstIdOf r.user_id).bind
        (fun j => alookup j (userLoginMapOf st records)) = Option.none := by
      rw [hu]
      rfl
    refine ⟨?_, by rw [h33, hu]; rfl⟩
    show cellStr (((firstIdOf r.user_id).bind
        (fun j => alookup j (userLoginMapOf st records))).getD (PyVal.str "")) = ""
    rw [hb]
    rfl
  · intro uid lbl huu hfind
    have huid : firstIdOf r.user_id = some uid := by rw [huu]; rfl
    have hmem : uid ∈ rawUserIds records :=
      List.mem_filterMap.mpr ⟨r, List.get?_mem h, huid⟩
    have hb : (firstIdOf r.user_id).bind
        (fun j => alookup j (userLoginMapOf st records)) = Option.none := by
      rw [huid]
      show alookup uid (userLoginMapOf st records) = Option.none
      rw [userMap_lookup st records hmem, hfind]
      rfl
    refine ⟨?_, by rw [h33, huu]; rfl⟩
    show cellStr (((firstIdOf r.user_id).bind
        (fun j => alookup j (userLoginMapOf st records))).getD (PyVal.str "")) = ""
    rw [hb]
    rfl

/-- Witness for the amended C6: partner id 5 is unresolved in `st6`, the
label column shows "Acme", the lookup-derived columns are empty, and the
row is still written. -/
theorem c6_witness :
    ([rA] : List Record).get? 0 = some rA ∧
      (processBatch st6 [rA]).2.get? 0 = some (rowOf st6 [rA] rA) ∧
      ((rowOf st6 [rA] rA).getD 16 "?" = pyStrNorm "Acme" ∧
        (rowOf st6 [rA] rA).getD 17 "?" = "" ∧ (rowOf st6 [rA] rA).getD 18 "?" = "" ∧
        (rowOf st6 [rA] rA).getD 19 "?" = "" ∧ (rowOf st6 [rA] rA).getD 20 "?" = "" ∧
        (rowOf st6 [rA] rA).getD 21 "?" = "" ∧ (rowOf st6 [rA] rA).getD 22 "?" = "" ∧
        (rowOf st6 [rA] rA).getD 23 "?" = "") :=
  ⟨rfl, (c6_unresolved_refs st6 [rA] 0 rA rfl).1,
    (c6_unresolved_refs st6 [rA] 0 rA rfl).2.2.2.1 5 "Acme" rfl rfl⟩

/-- C7: with the source unchanged and no fatal error, the driver processes
exactly `⌈total / size⌉` batch windows (characterized by
`(n-1)·size < total ≤ n·size`), the batch lengths sum to the total, the
number of data rows written (after the header) equals that sum, the
`exported` counter equals it too, and when `size` does not divide the total
the last batch carries exactly `total mod size` records. -/
theorem c7_batching (size : Nat) (st : Store) (hs : 0 < size) :
    (runExport size st).batches.length = numBatches st.leads.length size ∧
      (((runExport size st).batches.map List.length).sum = st.leads.length ∧
        (runExport size st).exported = st.leads.length) ∧
      (st.leads.length ≠ 0 →
        ∃ rows, (runExport size st).file = some (HEADERS :: rows) ∧
          rows.length = st.leads.length) ∧
      (st.leads.length = 0 → (runExport size st).file = Option.none) ∧
      (st.leads.length ≠ 0 →
        st.leads.length ≤ numBatches st.leads.length size * size ∧
          (numBatches st.leads.length size - 1) * size < st.leads.length) ∧
      (¬ size ∣ st.leads.length →
        ∃ lb, (runExport size st).batches.getLast? = some lb ∧
          lb.length = st.leads.length % size) := by
  by_cases h0 : st.leads.length = 0
  · rw [runExport, if_pos h0]
    have hnb : numBatches st.leads.length size = 0 := by
      unfold numBatches
      rw [h0]
      exact Nat.div_eq_of_lt (by omega)
    refine ⟨by rw [hnb]; rfl, ⟨by simp [h0], by simp [h0]⟩, ?_, fun _ => rfl, ?_, ?_⟩
    · intro hcon; exact absurd h0 hcon
    · intro hcon; exact absurd h0 hcon
    · intro hdvd
      exact absurd (h0 ▸ dvd_zero size) hdvd
  · rw [runExport, if_neg h0]
    have hflat : ((List.range (numBatches st.leads.length size)).map
        (fun i => fetchBatch st.leads size (i * size))).flatten = st.leads :=
      windows_flatten size hs (numBatches st.leads.length size) st.leads rfl
    have hsum : (((List.range (numBatches st.leads.length size)).map
        (fun i => fetchBatch st.leads size (i * size))).map List.length).sum
          = st.leads.length := by
      rw [sum_map_length, hflat]
    refine ⟨by rw [List.length_map, List.length_range], ⟨hsum, hsum⟩, ?_, ?_, ?_, ?_⟩
    · intro _
      refine ⟨_, rfl, ?_⟩
      rw [List.length_flatMap]
      rw [List.map_map]
      have hcong : ((List.range (numBatches st.leads.length size)).map
          (fun i => fetchBatch st.leads size (i * size))).map
            (List.length ∘ batchRows st)
            = ((List.range (numBatches st.leads.length size)).map
              (fun i => fetchBatch st.leads size (i * size))).map List.length := by
        apply List.map_congr_left
        intro b _
        show (batchRows st b).length = b.length
        simp [batchRows]
      rw [← List.map_map, hcong, hsum]
    · intro hcon; exact absurd hcon h0
    · intro _
      exact ⟨numBatches_mul_ge _ _ hs h0, numBatches_pred_mul_lt _ _ hs h0⟩
    · intro hdvd
      have hmod : st.leads.length % size ≠ 0 := fun hc =>
        hdvd (Nat.dvd_iff_mod_eq_zero.mpr hc)
      have hnb := numBatches_of_mod st.leads.length size hs hmod
      rw [hnb, List.range_succ, List.map_append]
      refine ⟨_, List.getLast?_concat _, ?_⟩
      show (fetchBatch st.leads size (st.leads.length / size * size)).length
        = st.leads.length % size
      unfold fetchBatch
      rw [List.length_take, List.length_drop]
      have hqr := Nat.div_add_mod st.leads.length size
      have hrlt : st.leads.length % size < size := Nat.mod_lt _ hs
      have hcomm : st.leads.length / size * size = size * (st.leads.length / size) :=
        Nat.mul_comm _ _
      obtain ⟨p, hp⟩ : ∃ p, size * (st.leads.length / size) = p := ⟨_, rfl⟩
      rw [hcomm, hp]
      rw [hp] at hqr
      omega

/-- Five leads: with batch size 2 the driver makes 3 windows of sizes
2, 2, 1. -/
def st7 : Store :=
  ⟨[baseRecord 1, baseRecord 2, baseRecord 3, baseRecord 4, baseRecord 5], [], [], [], []⟩

/-- Witness for C7 at batch size 2 over five records; evaluation confirms
the window lengths [2, 2, 1]. -/
theorem c7_witness :
    (0 < 2 ∧
      ((runExport 2 st7).batches.length = numBatches st7.leads.length 2 ∧
        (((runExport 2 st7).batches.map List.length).sum = st7.leads.length ∧
          (runExport 2 st7).exported = st7.leads.length) ∧
        (st7.leads.length ≠ 0 →
          ∃ rows, (runExport 2 st7).file = some (HEADERS :: rows) ∧
            rows.length = st7.leads.length) ∧
        (st7.leads.length = 0 → (runExport 2 st7).file = Option.none) ∧
        (st7.leads.length ≠ 0 →
          st7.leads.length ≤ numBatches st7.leads.length 2 * 2 ∧
            (numBatches st7.leads.length 2 - 1) * 2 < st7.leads.length) ∧
        (¬ 2 ∣ st7.leads.length →
          ∃ lb, (runExport 2 st7).batches.getLast? = some lb ∧
            lb.length = st7.leads.length % 2))) ∧
      (runExport 2 st7).batches.map List.length = [2, 2, 1] :=
  ⟨⟨by decide, c7_batching 2 st7 (by decide)⟩, by decide⟩

end ExportCrm
